import Mathlib

/-!
Verification of `convert_dayone_to_obsidian.py` (DayOne → Obsidian converter).

This file shallowly embeds the Python source into Lean 4 and proves the
specification claims about it.  Python strings are modelled as `List Char`
(one element per code point, matching Python's `len`/indexing); Python
`None`-able values as `Option`; dictionaries read in insertion order as
association lists; the output directory as association lists of
(filename, content).  Whitespace and case-folding are modelled over the
ASCII range, which covers every character the converter itself produces.
-/

/-- Python strings, one `Char` per code point. -/
abbrev Str := List Char

/-- The ASCII whitespace characters matched by Python's `\s` regex class and
by `str.strip()` (space, tab, newline, carriage return, vertical tab,
form feed).  Unicode-only whitespace is outside the model. -/
def isPySpace (c : Char) : Bool :=
  c = ' ' || c = '\t' || c = '\n' || c = '\r' || c = '\x0b' || c = '\x0c'

/-- Python `str.lstrip()` (default whitespace). -/
def lstripWS (l : Str) : Str := l.dropWhile isPySpace

/-- Python `str.rstrip()` (default whitespace). -/
def rstripWS (l : Str) : Str := (l.reverse.dropWhile isPySpace).reverse

/-- Python `str.strip()` (default whitespace). -/
def stripWS (l : Str) : Str := lstripWS (rstripWS l)

/-- Python `s.strip('"')`: remove all leading and trailing `"` characters. -/
def stripQuotes (l : Str) : Str :=
  ((l.dropWhile (· = '"')).reverse.dropWhile (· = '"')).reverse

/-- The characters removed by `sanitize_filename`
(`re.sub(r'[<>:"/\\|?*]', '', text)`). -/
def badFilenameChar (c : Char) : Bool :=
  c = '<' || c = '>' || c = ':' || c = '"' || c = '/' || c = '\\' ||
  c = '|' || c = '?' || c = '*'

/-- Helper for `collapseWS`: `prevSpace` records whether the previous input
character was whitespace (i.e. we are inside a run already replaced). -/
def collapseWSAux : Bool → Str → Str
  | _, [] => []
  | prevSpace, c :: rest =>
    if isPySpace c then
      if prevSpace then collapseWSAux true rest
      else ' ' :: collapseWSAux true rest
    else c :: collapseWSAux false rest

/-- `re.sub(r'\s+', ' ', s)`: every maximal whitespace run becomes one space. -/
def collapseWS (l : Str) : Str := collapseWSAux false l

/-- Index of the last space in `l`, as Python `s.rfind(' ')` (absence is
modelled by `none` instead of `-1`). -/
def lastSpaceIdx (l : Str) : Option Nat :=
  match l.reverse.findIdx? (· = ' ') with
  | some j => some (l.length - 1 - j)
  | none => none

/-- The truncation step of `sanitize_filename`: if over `max_length`,
cut to `max_length`, back up to the last space when that space is after
index 20, and trim trailing whitespace. -/
def sanitizeTruncate (s : Str) (max_length : Nat) : Str :=
  if max_length < s.length then
    let truncated := s.take max_length
    let truncated2 :=
      match lastSpaceIdx truncated with
      | some i => if 20 < i then truncated.take i else truncated
      | none => truncated
    stripWS truncated2
  else s

/-- `sanitize_filename(text, max_length)` from the source: strip
`< > : " / \ | ? *`, collapse whitespace runs, trim, fall back to
`"Untitled"` when empty, and truncate over-long results at a word boundary
(`sanitizeTruncate`). -/
def sanitize_filename (text : Str) (max_length : Nat) : Str :=
  if text = [] then "Untitled".toList
  else
    let s3 := stripWS (collapseWS (text.filter (fun c => !badFilenameChar c)))
    if s3 = [] then "Untitled".toList
    else
      let s4 := sanitizeTruncate s3 max_length
      if s4 = [] then "Untitled".toList else s4

-- ### Lemmas about the string helpers

/-- Gregorian leap-year rule (as Python's `calendar`/`datetime`). -/
def isLeap (y : Nat) : Bool :=
  (decide (y % 4 = 0) && !decide (y % 100 = 0)) || decide (y % 400 = 0)

/-- Length of month `m` of year `y`. -/
def daysInMonth (y m : Nat) : Nat :=
  match m with
  | 2 => if isLeap y then 29 else 28
  | 4 => 30 | 6 => 30 | 9 => 30 | 11 => 30
  | _ => 31

/-- Days in year `y` strictly before month `m`. -/
def daysBeforeMonth (y m : Nat) : Nat :=
  let base : Nat := match m with
    | 1 => 0 | 2 => 31 | 3 => 59 | 4 => 90 | 5 => 120 | 6 => 151 | 7 => 181
    | 8 => 212 | 9 => 243 | 10 => 273 | 11 => 304 | 12 => 334 | _ => 0
  if 3 ≤ m && isLeap y then base + 1 else base

/-- Proleptic-Gregorian day number (`rataDie 1 1 1 = 1`).  Used only through
`weekdayOf`; checked against Python: 2024-01-01 is a Monday. -/
def rataDie (y m d : Nat) : Nat :=
  365 * (y - 1) + (y - 1) / 4 - (y - 1) / 100 + (y - 1) / 400 +
    daysBeforeMonth y m + d

/-- Day of week with Python's `datetime.weekday()` convention:
Monday = 0, …, Sunday = 6. -/
def weekdayOf (y m d : Nat) : Nat := (rataDie y m d + 6) % 7

/-- A Python `datetime` value (timezone-naive; the converter only ever
compares and renders the civil fields, so `tzinfo` is dropped). -/
structure DateTime where
  year : Nat
  month : Nat
  day : Nat
  hour : Nat
  minute : Nat
  second : Nat
deriving DecidableEq

/-- Python `datetime` strict comparison: lexicographic on the fields. -/
def dtLt (a b : DateTime) : Bool :=
  decide (a.year < b.year) || (decide (a.year = b.year) &&
    (decide (a.month < b.month) || (decide (a.month = b.month) &&
      (decide (a.day < b.day) || (decide (a.day = b.day) &&
        (decide (a.hour < b.hour) || (decide (a.hour = b.hour) &&
          (decide (a.minute < b.minute) || (decide (a.minute = b.minute) &&
            decide (a.second < b.second))))))))))

/-- Python `datetime` non-strict comparison. -/
def dtLe (a b : DateTime) : Bool := dtLt a b || decide (a = b)

/-- `dt + timedelta(days=1)` (time of day unchanged). -/
def nextDay (dt : DateTime) : DateTime :=
  if dt.day < daysInMonth dt.year dt.month then { dt with day := dt.day + 1 }
  else if dt.month < 12 then { dt with month := dt.month + 1, day := 1 }
  else { dt with year := dt.year + 1, month := 1, day := 1 }

/-- `dt + timedelta(days=n)`. -/
def addDays : Nat → DateTime → DateTime
  | 0, dt => dt
  | n + 1, dt => addDays n (nextDay dt)

/-- `dt - timedelta(days=1)` (time of day unchanged); used for negative
hour offsets crossing midnight. -/
def prevDay (dt : DateTime) : DateTime :=
  if 1 < dt.day then { dt with day := dt.day - 1 }
  else if 1 < dt.month then
    { dt with month := dt.month - 1, day := daysInMonth dt.year (dt.month - 1) }
  else { dt with year := dt.year - 1, month := 12, day := 31 }

/-- `dt + timedelta(hours=h)` for `-24 < h < 24` (the only offsets the
converter uses are between -8 and 0 hours). -/
def addHours (dt : DateTime) (h : Int) : DateTime :=
  let total : Int := (dt.hour : Int) + h
  if total < 0 then { prevDay dt with hour := (total + 24).toNat }
  else if 24 ≤ total then { nextDay dt with hour := (total - 24).toNat }
  else { dt with hour := total.toNat }

-- ### `is_dst` and the timezone offset tables

/-- `is_dst(dt)` from the source: second Sunday of March (00:00) up to but
not including the first Sunday of November (00:00) of `dt`'s year. -/
def is_dst (dt : DateTime) : Bool :=
  let year := dt.year
  let w1 := weekdayOf year 3 1
  let days_until_sunday1 := (6 - w1) % 7
  let dst_start := addDays (days_until_sunday1 + 7) ⟨year, 3, 1, 0, 0, 0⟩
  let w2 := weekdayOf year 11 1
  let days_until_sunday2 := (6 - w2) % 7
  let dst_end := addDays days_until_sunday2 ⟨year, 11, 1, 0, 0, 0⟩
  dtLe dst_start dt && dtLt dt dst_end

/-- `TIMEZONE_OFFSETS_STD` from the source (hours from UTC, standard time). -/
def TIMEZONE_OFFSETS_STD : List (Str × Int) :=
  [("America/Chicago".toList, -6), ("America/New_York".toList, -5),
   ("America/Denver".toList, -7), ("America/Los_Angeles".toList, -8),
   ("America/Phoenix".toList, -7), ("UTC".toList, 0)]

/-- `TIMEZONE_OFFSETS_DST` from the source (hours from UTC, daylight time). -/
def TIMEZONE_OFFSETS_DST : List (Str × Int) :=
  [("America/Chicago".toList, -5), ("America/New_York".toList, -4),
   ("America/Denver".toList, -6), ("America/Los_Angeles".toList, -7),
   ("America/Phoenix".toList, -7), ("UTC".toList, 0)]

/-- Python `dict.get(k, default)` over an insertion-ordered table. -/
def dictGet (t : List (Str × Int)) (k : Str) (dflt : Int) : Int :=
  match t.find? (fun p => decide (p.1 = k)) with
  | some p => p.2
  | none => dflt

/-- `get_timezone_offset(timezone_str, dt)` from the source; the fallback
for unknown zone names is the hardcoded `-6` in both branches. -/
def get_timezone_offset (tz : Str) (dt : DateTime) : Int :=
  if is_dst dt then dictGet TIMEZONE_OFFSETS_DST tz (-6)
  else dictGet TIMEZONE_OFFSETS_STD tz (-6)

-- ### Spec-side formulation of the DST window (from the spec's words)

/-- Spec wording: `d` is the second Sunday of March of year `y`
(the unique Sunday with day-of-month between 8 and 14). -/
def isSecondSundayOfMarch (y d : Nat) : Prop :=
  weekdayOf y 3 d = 6 ∧ 8 ≤ d ∧ d ≤ 14

/-- Spec wording: `d` is the first Sunday of November of year `y`
(the unique Sunday with day-of-month between 1 and 7). -/
def isFirstSundayOfNovember (y d : Nat) : Prop :=
  weekdayOf y 11 d = 6 ∧ 1 ≤ d ∧ d ≤ 7

/-- Spec wording of the US DST window, per calendar year of the instant:
from the second Sunday of March (midnight, inclusive) until the first
Sunday of November (midnight, exclusive). -/
def dst_spec (dt : DateTime) : Prop :=
  ∃ d1 d2, isSecondSundayOfMarch dt.year d1 ∧ isFirstSundayOfNovember dt.year d2 ∧
    dtLe ⟨dt.year, 3, d1, 0, 0, 0⟩ dt = true ∧
    dtLt dt ⟨dt.year, 11, d2, 0, 0, 0⟩ = true

-- ### Lemmas for C6

/-- ASCII decimal digit test. -/
def isDigitChar (c : Char) : Bool := decide ('0' ≤ c) && decide (c ≤ '9')

/-- Numeric value of a digit character. -/
def digitVal (c : Char) : Nat := c.toNat - '0'.toNat

/-- Parse exactly two digits, returning the value and the rest. -/
def parse2 (l : Str) : Option (Nat × Str) :=
  match l with
  | a :: b :: rest =>
    if isDigitChar a && isDigitChar b then
      some (digitVal a * 10 + digitVal b, rest)
    else none
  | _ => none

/-- Parse exactly four digits, returning the value and the rest. -/
def parse4 (l : Str) : Option (Nat × Str) :=
  match l with
  | a :: b :: c :: d :: rest =>
    if isDigitChar a && isDigitChar b && isDigitChar c && isDigitChar d then
      some (digitVal a * 1000 + digitVal b * 100 + digitVal c * 10 + digitVal d, rest)
    else none
  | _ => none

/-- Parse the `HH[:MM[:SS[.fff / .ffffff]]]` part of an ISO time; fractional
seconds are validated and discarded (the model's `DateTime` is
second-granular, and the converter never renders microseconds). -/
def parseTimePart (l : Str) : Option (Nat × Nat × Nat × Str) := do
  let (h, r1) ← parse2 l
  if 23 < h then none
  else
    match r1 with
    | ':' :: r2 => do
      let (mi, r3) ← parse2 r2
      if 59 < mi then none
      else
        match r3 with
        | ':' :: r4 => do
          let (s, r5) ← parse2 r4
          if 59 < s then none
          else
            match r5 with
            | '.' :: r6 =>
              let frac := r6.takeWhile isDigitChar
              if frac.length = 3 ∨ frac.length = 6 then
                some (h, mi, s, r6.drop frac.length)
              else none
            | _ => some (h, mi, s, r5)
        | _ => some (h, mi, 0, r3)
    | _ => some (h, 0, 0, r1)

/-- Validate a `±HH:MM` UTC-offset suffix (or no suffix).  The converter
parses the offset but then ignores it: all later arithmetic and
comparisons use the naive civil fields. -/
def validOffsetSuffix (l : Str) : Bool :=
  match l with
  | [] => true
  | s :: rest =>
    (s = '+' || s = '-') &&
      (match parse2 rest with
       | some (hh, ':' :: r2) =>
         decide (hh ≤ 23) &&
           (match parse2 r2 with
            | some (mm, r3) => decide (mm ≤ 59) && decide (r3 = ([] : Str))
            | none => false)
       | _ => false)

/-- The subset of `datetime.fromisoformat` exercised by DayOne exports:
`YYYY-MM-DD[{T,space}HH[:MM[:SS[.frac]]]][±HH:MM]`, with range checks on
every field.  Returns `none` on anything else (the converter catches the
exception and degrades). -/
def parseISO (l : Str) : Option DateTime := do
  let (y, r1) ← parse4 l
  match r1 with
  | '-' :: r2 => do
    let (mo, r3) ← parse2 r2
    if mo < 1 ∨ 12 < mo then none
    else
      match r3 with
      | '-' :: r4 => do
        let (d, r5) ← parse2 r4
        if d < 1 ∨ daysInMonth y mo < d then none
        else
          match r5 with
          | [] => some ⟨y, mo, d, 0, 0, 0⟩
          | sep :: r6 =>
            if sep = 'T' ∨ sep = ' ' then do
              let (h, mi, s, r7) ← parseTimePart r6
              if validOffsetSuffix r7 then some ⟨y, mo, d, h, mi, s⟩ else none
            else none
      | _ => none
  | _ => none

/-- Python `s.replace('Z', '+00:00')`. -/
def replaceZ (l : Str) : Str :=
  l.foldr (fun c acc => (if c = 'Z' then "+00:00".toList else [c]) ++ acc) []

/-- `convert_to_local_time(iso_date_str, timezone_str)` from the source:
parse the UTC instant, look up the DST-aware offset, add it as whole
hours, and return the naive local datetime (`none` on parse failure). -/
def convert_to_local_time (iso : Str) (tz : Str) : Option DateTime :=
  if iso = [] then none
  else
    match parseISO (replaceZ iso) with
    | none => none
    | some dt => some (addHours dt (get_timezone_offset tz dt))

/-- Left-pad a numeral to `w` digits with zeros. -/
def padNat (w n : Nat) : Str :=
  let s := Nat.toDigits 10 n
  List.replicate (w - s.length) '0' ++ s

/-- `dt.strftime('%Y-%m-%d')`. -/
def formatDateOnly (dt : DateTime) : Str :=
  padNat 4 dt.year ++ "-".toList ++ padNat 2 dt.month ++ "-".toList ++ padNat 2 dt.day

/-- `format_local_datetime(dt)` from the source
(`dt.strftime('%Y-%m-%dT%H:%M:%S')`). -/
def format_local_datetime (dt : DateTime) : Str :=
  formatDateOnly dt ++ "T".toList ++ padNat 2 dt.hour ++ ":".toList ++
    padNat 2 dt.minute ++ ":".toList ++ padNat 2 dt.second

-- ### Title extraction

/-- `re.match(r'^!\[.*\]\(.*\)$', s)`: `s` is exactly an image reference.
Holds iff `s = "![" ++ a ++ "](" ++ b ++ ")"` for some `a`, `b`, i.e.
`s` starts with `![`, ends with `)`, and the interior contains `](`. -/
def isImageRefLine (s : Str) : Bool :=
  match s with
  | '!' :: '[' :: rest =>
    (match rest.getLast? with
     | some ')' => decide (("](".toList : Str) <:+: rest.dropLast)
     | _ => false)
  | _ => false

/-- The fallback scan of `extract_title`: first stripped line that is
non-empty, not a full image reference, and does not start with `![`. -/
def extractTitleFallback : List Str → Str
  | [] => "Untitled".toList
  | l :: rest =>
    let line := stripWS l
    if line ≠ [] ∧ ¬ isImageRefLine line = true then
      if ¬ ("![".toList.isPrefixOf line = true) then sanitize_filename line 50
      else extractTitleFallback rest
    else extractTitleFallback rest

/-- `extract_title(text)` from the source: prefer a leading `#` header
(unless the header text is itself just an image reference), otherwise the
fallback scan, otherwise `Untitled`. -/
def extract_title (text : Str) : Str :=
  if text = [] then "Untitled".toList
  else
    let lines := (stripWS text).splitOn '\n'
    let first_line := stripWS (lines.headD [])
    if first_line.head? = some '#' then
      let title := (first_line.dropWhile (· = '#')).dropWhile isPySpace
      if ¬ isImageRefLine (stripWS title) = true then sanitize_filename title 50
      else extractTitleFallback lines
    else extractTitleFallback lines

-- ### Entry data model and filename derivation

/-- One DayOne photo record (the fields the converter reads; `identifier`
and `md5` default to the empty string as with `dict.get(k, '')`). -/
structure Photo where
  identifier : Str
  md5 : Str
  type? : Option Str
deriving DecidableEq

/-- One DayOne journal entry (the fields the converter reads).  Latitude
and longitude are carried as their rendered text (they are only ever
printed, never computed with); the weather temperature is a rational. -/
structure Entry where
  uuid? : Option Str
  text? : Option Str
  creationDate? : Option Str
  modifiedDate? : Option Str
  timeZone? : Option Str
  locationAddress? : Option Str
  locationLatitude? : Option Str
  locationLongitude? : Option Str
  weather? : Option (Option Str × Option Rat)
  tags : List Str
  starred : Bool
  isPinned : Bool
  creationDevice? : Option Str
  photos : List Photo
deriving DecidableEq

/-- An entry with every field absent; witness fixtures override fields. -/
def blankEntry : Entry :=
  { uuid? := none, text? := none, creationDate? := none, modifiedDate? := none,
    timeZone? := none, locationAddress? := none, locationLatitude? := none,
    locationLongitude? := none, weather? := none, tags := [], starred := false,
    isPinned := false, creationDevice? := none, photos := [] }

/-- `generate_filename(entry)` from the source:
`f"{date_str} {title} ({uuid8}).md"` with `uuid8 = entry.get('uuid',
'UNKNOWN')[:8]` and `date_str` the local creation date or `Unknown-Date`. -/
def generate_filename (e : Entry) : Str :=
  let creation_date := e.creationDate?.getD []
  let timezone_str := e.timeZone?.getD ("America/Chicago".toList)
  let date_str :=
    match convert_to_local_time creation_date timezone_str with
    | some dt => formatDateOnly dt
    | none => "Unknown-Date".toList
  let title := extract_title (e.text?.getD [])
  let uuid := e.uuid?.getD ("UNKNOWN".toList)
  let uuid8 := uuid.take 8
  date_str ++ " ".toList ++ title ++ " (".toList ++ uuid8 ++ ")".toList ++ ".md".toList

/-- `[A-Fa-f0-9]`: the identifier character class of the image-link regex. -/
def isHexDigitChar (c : Char) : Bool :=
  (decide ('0' ≤ c) && decide (c ≤ '9')) ||
  (decide ('a' ≤ c) && decide (c ≤ 'f')) ||
  (decide ('A' ≤ c) && decide (c ≤ 'F'))

/-- The literal part of the pattern that follows the closing `]`:
`\(dayone-moment://`. -/
def schemeChars : Str := "(dayone-moment://".toList

/-- Match a literal prefix, returning the remainder. -/
def dropLit : Str → Str → Option Str
  | [], l => some l
  | _ :: _, [] => none
  | p :: ps, c :: cs => if c = p then dropLit ps cs else none

/-- After a candidate `]`, try to match `\(dayone-moment://([A-Fa-f0-9]*)\)`:
the greedy hex run must be followed directly by `)` (backtracking inside
the hex run cannot help, since no hex character is `)`).  Returns the
captured identifier and the rest of the input. -/
def tryTail (l : Str) : Option (Str × Str) :=
  match dropLit schemeChars l with
  | none => none
  | some rest =>
    let ident := rest.takeWhile isHexDigitChar
    match rest.dropWhile isHexDigitChar with
    | ')' :: r => some (ident, r)
    | _ => none

/-- The lazy `.*?\]` of the pattern: try the tail at each `]` in turn
(left to right); `.` does not match a newline, so a newline aborts. -/
def tryAfterBracket : Str → Option (Str × Str)
  | [] => none
  | c :: rest =>
    if c = '\n' then none
    else if c = ']' then
      match tryTail rest with
      | some res => some res
      | none => tryAfterBracket rest
    else tryAfterBracket rest

/-- `normalize_extension(ext)` from the source: empty → `jpeg`, case-fold,
`jpg` → `jpeg`. -/
def normalize_extension (ext : Str) : Str :=
  if ext = [] then "jpeg".toList
  else
    let e := ext.map Char.toLower
    if e = "jpg".toList then "jpeg".toList else e

/-- The extension map lookup of `convert_image_links`: the `ext_map` dict is
built over all photos in order (later duplicates overwrite earlier ones),
and `ext_map.get(identifier, 'jpeg')` falls back to `jpeg`. -/
def extFor (photos : List Photo) (ident : Str) : Str :=
  match (photos.filter (fun p => decide (p.identifier = ident))).getLast? with
  | some p => normalize_extension (p.type?.getD ("jpeg".toList))
  | none => "jpeg".toList

/-- `replace_image(match)` from the source: empty identifier → delete the
token, otherwise an embed wiki link `![[photos/<id>.<ext>]]`. -/
def renderImage (extFun : Str → Str) (ident : Str) : Str :=
  if ident = [] then []
  else "![[photos/".toList ++ ident ++ ".".toList ++ extFun ident ++ "]]".toList

/-- The `re.sub` scan: find the leftmost match of
`!\[.*?\]\(dayone-moment://([A-Fa-f0-9]*)\)`, replace it, continue after
the match.  `fuel` (instantiated with the input length) only forces
structural recursion; it never runs out because every step consumes at
least one input character. -/
def convAuxF (f : Str → Str) : Nat → Str → Str
  | 0, l => l
  | _ + 1, [] => []
  | fuel + 1, '!' :: '[' :: rest =>
    (match tryAfterBracket rest with
     | some (ident, r) => f ident ++ convAuxF f fuel r
     | none => '!' :: convAuxF f fuel ('[' :: rest))
  | fuel + 1, c :: rest => c :: convAuxF f fuel rest

/-- `convert_image_links(text, photos_info)` from the source. -/
def convert_image_links (text : Str) (photos : List Photo) : Str :=
  if text = [] then text
  else convAuxF (renderImage (extFor photos)) text.length text

/-- `celsius_to_fahrenheit(celsius)` from the source:
`round(celsius * 9/5 + 32)`.  Modelled over rationals with nearest-integer
rounding (Python rounds floats half-to-even; no claim touches the half
case). -/
def celsius_to_fahrenheit (c : Rat) : Int := round (c * 9 / 5 + 32)

/-- Python `str` of an integer. -/
def intRepr (i : Int) : Str :=
  if i < 0 then '-' :: Nat.toDigits 10 i.natAbs else Nat.toDigits 10 i.natAbs

/-- Python `sep.join(parts)`. -/
def joinSep (sep : Str) : List Str → Str
  | [] => []
  | [x] => x
  | x :: xs => x ++ sep ++ joinSep sep xs

/-- `format_weather(weather_data)` from the source: a comma-joined string
of the condition description and/or the Fahrenheit temperature, `none`
when the weather record is absent or contributes nothing. -/
def format_weather (w : Option (Option Str × Option Rat)) : Option Str :=
  match w with
  | none => none
  | some (desc?, temp?) =>
    let parts : List Str :=
      (match desc? with | some d => [d] | none => []) ++
      (match temp? with
       | some t => [intRepr (celsius_to_fahrenheit t) ++ "°F".toList]
       | none => [])
    if parts = [] then none else some (joinSep ", ".toList parts)

/-- A frontmatter value: string, list (tags, and the coordinate pair kept
as its two rendered numbers), or boolean. -/
inductive FMVal
  | s (v : Str)
  | list (items : List Str)
  | b (v : Bool)
deriving DecidableEq

/-- `build_frontmatter(entry)` from the source: sparse, insertion-ordered
keys `uuid, date, modified, location, coordinates, weather, tags,
starred, pinned, device, timezone`. -/
def build_frontmatter (e : Entry) : List (Str × FMVal) :=
  let tz := e.timeZone?.getD ("America/Chicago".toList)
  (match e.uuid? with | some u => [("uuid".toList, FMVal.s u)] | none => []) ++
  (match e.creationDate? with
   | some cd =>
     (match convert_to_local_time cd tz with
      | some dt => [("date".toList, FMVal.s (format_local_datetime dt))]
      | none => [])
   | none => []) ++
  (match e.modifiedDate? with
   | some md =>
     (match convert_to_local_time md tz with
      | some dt => [("modified".toList, FMVal.s (format_local_datetime dt))]
      | none => [])
   | none => []) ++
  (match e.locationAddress? with
   | some a => if a ≠ [] then [("location".toList, FMVal.s a)] else []
   | none => []) ++
  (match e.locationLatitude?, e.locationLongitude? with
   | some la, some lo => [("coordinates".toList, FMVal.list [la, lo])]
   | _, _ => []) ++
  (match format_weather e.weather? with
   | some wstr => [("weather".toList, FMVal.s wstr)]
   | none => []) ++
  (if e.tags ≠ [] then [("tags".toList, FMVal.list e.tags)] else []) ++
  (if e.starred then [("starred".toList, FMVal.b true)] else []) ++
  (if e.isPinned then [("pinned".toList, FMVal.b true)] else []) ++
  (match e.creationDevice? with
   | some d => [("device".toList, FMVal.s d)] | none => []) ++
  (match e.timeZone? with
   | some t => [("timezone".toList, FMVal.s t)] | none => [])

/-- The string-quoting test of `frontmatter_to_yaml`. -/
def yamlNeedsQuote (v : Str) : Bool :=
  v.any (fun c => c = ':' || c = '#' || c = '"' || c = '\'' || c = '\n' ||
    c = '[' || c = ']' || c = '\x7b' || c = '\x7d')

/-- `value.replace('"', '\\"')`. -/
def escapeQuotes (v : Str) : Str :=
  v.foldr (fun c acc => (if c = '"' then ['\\', '"'] else [c]) ++ acc) []

/-- The lines emitted for one frontmatter key/value pair. -/
def yamlLines (key : Str) (v : FMVal) : List Str :=
  match v with
  | .list items =>
    if key = "coordinates".toList then
      [key ++ [':'],
       "  - \"".toList ++ items.headD [] ++ ['"'],
       "  - \"".toList ++ (items.drop 1).headD [] ++ ['"']]
    else
      (key ++ [':']) :: items.map (fun it => "  - ".toList ++ it)
  | .b v => [key ++ ": ".toList ++ (if v then "true".toList else "false".toList)]
  | .s v =>
    if yamlNeedsQuote v then [key ++ ": \"".toList ++ escapeQuotes v ++ ['"']]
    else [key ++ ": ".toList ++ v]

/-- `frontmatter_to_yaml(fm)` from the source: `---`, the key lines in
order, `---`, joined with newlines. -/
def frontmatter_to_yaml (fm : List (Str × FMVal)) : Str :=
  joinSep "\n".toList
    (("---".toList :: (fm.map (fun kv => yamlLines kv.1 kv.2)).flatten) ++
      ["---".toList])

/-- The full document written for one entry
(`f"{yaml_fm}\n\n{content}"` in `process_entries`). -/
def entryContentOf (e : Entry) : Str :=
  frontmatter_to_yaml (build_frontmatter e) ++ "\n\n".toList ++
    convert_image_links (e.text?.getD []) e.photos

-- ### Output directory model and the reconciliation loop

/-- The five-field statistics counter of `process_entries`. -/
structure Stats where
  total : Nat
  created : Nat
  updated : Nat
  skipped : Nat
  errors : Nat
deriving DecidableEq

/-- All counters zero. -/
def initStats : Stats := ⟨0, 0, 0, 0, 0⟩

/-- The slice of the filesystem the converter touches: the
`journal-entries` directory as an ordered association list of
(filename, content); its `photos` subdirectory as a list of filenames
(photo bytes are copied as-is); whether the output directories were
created; and the number of appended `conversion_log.txt` records (their
text contains a `datetime.now()` timestamp and is not modelled further). -/
structure FS where
  files : List (Str × Str)
  photoFiles : List Str
  dirsMade : Bool
  logRuns : Nat
deriving DecidableEq

/-- Writing a file: replace in place when the name exists (directory
order preserved), else append. -/
def writeFile (files : List (Str × Str)) (name content : Str) : List (Str × Str) :=
  if files.any (fun p => decide (p.1 = name)) then
    files.map (fun p => if p.1 = name then (name, content) else p)
  else files ++ [(name, content)]

/-- `Path.unlink`. -/
def deleteFile (files : List (Str × Str)) (name : Str) : List (Str × Str) :=
  files.filter (fun p => !decide (p.1 = name))

/-- The glob pattern `*(<uuid8>).md` as a suffix test (the identifiers the
claims quantify over contain no glob metacharacters). -/
def matchesPattern (name u8 : Str) : Bool :=
  decide (("(".toList ++ u8 ++ ").md".toList : Str) <:+ name)

/-- `find_existing_file(output_dir, uuid8)` from the source: the first
directory entry matching `*(<uuid8>).md` (`matches[0]`). -/
def find_existing_file (files : List (Str × Str)) (u8 : Str) : Option (Str × Str) :=
  (files.filter (fun p => matchesPattern p.1 u8)).head?

/-- One attempt of the regex `^modified:\s*(.+)$` at a line-start
occurrence of `modified:`: `\s*` greedily skips whitespace (in Python
this may cross newlines), `(.+)` captures to the end of that line; when
the whitespace runs to the end of the input the engine backtracks into
it provided some non-newline whitespace exists, and the capture then
strips to the empty string.  `none`: this occurrence cannot match. -/
def extractAttempt (rest : Str) : Option Str :=
  let v := rest.dropWhile isPySpace
  if v ≠ [] then some (stripQuotes (stripWS (v.takeWhile (· ≠ '\n'))))
  else if (rest.takeWhile isPySpace).any (· ≠ '\n') then some []
  else none

/-- Advance to the start of the next line. -/
def nextLineStart (l : Str) : Str := (l.dropWhile (· ≠ '\n')).drop 1

/-- Scan line starts left to right for the first `modified:` occurrence
whose attempt succeeds.  `fuel` (input length + 1) only forces structural
recursion; every scan step drops at least one character. -/
def extractScanF : Nat → Str → Option Str
  | 0, _ => none
  | _, [] => none
  | fuel + 1, l =>
    if "modified:".toList.isPrefixOf l then
      match extractAttempt (l.drop 9) with
      | some v => some v
      | none => extractScanF fuel (nextLineStart l)
    else extractScanF fuel (nextLineStart l)

/-- `extract_modified_date_from_file` from the source, applied to the
file's text: search `^modified:\s*(.+)$` (MULTILINE) and return
`group(1).strip().strip('"')`; `none` when the regex does not match. -/
def extract_modified_date_from_file (content : Str) : Option Str :=
  extractScanF (content.length + 1) content

/-- Python `<` on strings: lexicographic by code point. -/
def strLtB : Str → Str → Bool
  | [], [] => false
  | [], _ :: _ => true
  | _ :: _, [] => false
  | a :: as, b :: bs => if a = b then strLtB as bs else decide (a < b)

/-- Python `<=` on strings. -/
def strLeB (a b : Str) : Bool := strLtB a b || decide (a = b)

/-- CLI flags relevant to the core (the input and output paths are
abstracted into the loaded input and the `FS` value). -/
structure Args where
  update : Bool
  dryRun : Bool
  verbose : Bool
deriving DecidableEq

/-- What the reconciliation engine did with one entry (the model's
analogue of the verbose log lines; `renamed` records whether a stale
match was deleted under its old name first). -/
inductive EntryAction
  | noText
  | created
  | updated (renamed : Bool)
  | skippedCurrent
  | skippedExists
deriving DecidableEq

/-- `entry.get('uuid', '')[:8]`, the matching key computed by the loop. -/
def uuid8Of (e : Entry) : Str := (e.uuid?.getD []).take 8

/-- One photo of `copy_photos`: search the ordered candidate source names
(md5/identifier with raw then normalized extension, the jpeg/jpg
fallbacks, then common extensions against the md5); first hit wins; copy
to `<identifier>.<normalized extension>` unless that destination already
exists; a missing source is a non-fatal skip. -/
def copyOnePhoto (srcPool : List Str) (dryRun : Bool) (photoFiles : List Str)
    (p : Photo) : List Str :=
  let photo_type_raw := (p.type?.getD ("jpeg".toList)).map Char.toLower
  let photo_type := normalize_extension photo_type_raw
  let cands : List Str :=
    [p.md5 ++ ".".toList ++ photo_type_raw, p.md5 ++ ".".toList ++ photo_type,
     p.identifier ++ ".".toList ++ photo_type_raw,
     p.identifier ++ ".".toList ++ photo_type,
     p.md5 ++ ".jpeg".toList, p.identifier ++ ".jpeg".toList,
     p.md5 ++ ".jpg".toList, p.identifier ++ ".jpg".toList]
  let source :=
    match cands.find? (fun n => decide (n ∈ srcPool)) with
    | some n => some n
    | none =>
      ((["jpg", "jpeg", "png", "gif", "heic"] : List String).map
        (fun ex : String => p.md5 ++ ".".toList ++ ex.toList)).find?
        (fun n => decide (n ∈ srcPool))
  match source with
  | none => photoFiles
  | some _ =>
    let dest := p.identifier ++ ".".toList ++ photo_type
    if decide (dest ∈ photoFiles) then photoFiles
    else if dryRun then photoFiles
    else photoFiles ++ [dest]

/-- `copy_photos(entry, ...)` from the source. -/
def copy_photos (e : Entry) (srcPool : List Str) (dryRun : Bool)
    (photoFiles : List Str) : List Str :=
  e.photos.foldl (copyOnePhoto srcPool dryRun) photoFiles

/-- The shared write section of the per-entry loop: write the markdown
file and copy the photos; zero filesystem effect in preview mode. -/
def doWrite (args : Args) (srcPool : List Str) (fs : FS) (e : Entry)
    (filename : Str) : FS :=
  if args.dryRun then fs
  else
    { fs with
      files := writeFile fs.files filename (entryContentOf e),
      photoFiles := copy_photos e srcPool false fs.photoFiles }

/-- The `existing_modified and entry_modified <= existing_modified` skip
test (`existing_modified` is truthy when present and non-empty). -/
def isCurrentTest (existingModified : Option Str) (entryModified : Str) : Bool :=
  match existingModified with
  | some s => decide (s ≠ []) && strLeB entryModified s
  | none => false

/-- One iteration of the `for entry in entries` loop of `process_entries`,
threading statistics, the filesystem, and the action trace. -/
def step (args : Args) (srcPool : List Str) (acc : Stats × FS × List EntryAction)
    (e : Entry) : Stats × FS × List EntryAction :=
  let stats := { acc.1 with total := acc.1.total + 1 }
  let fs := acc.2.1
  let acts := acc.2.2
  if e.text?.getD [] = [] then
    ({ stats with skipped := stats.skipped + 1 }, fs, acts ++ [EntryAction.noText])
  else
    let uuid8 := uuid8Of e
    let filename := generate_filename e
    match find_existing_file fs.files uuid8 with
    | some (exName, exContent) =>
      if args.update then
        if isCurrentTest (extract_modified_date_from_file exContent)
            (e.modifiedDate?.getD []) then
          ({ stats with skipped := stats.skipped + 1 }, fs,
           acts ++ [EntryAction.skippedCurrent])
        else
          let fs1 :=
            if decide (exName ≠ filename) && !args.dryRun then
              { fs with files := deleteFile fs.files exName }
            else fs
          ({ stats with updated := stats.updated + 1 },
           doWrite args srcPool fs1 e filename,
           acts ++ [EntryAction.updated (decide (exName ≠ filename))])
      else
        ({ stats with skipped := stats.skipped + 1 }, fs,
         acts ++ [EntryAction.skippedExists])
    | none =>
      ({ stats with created := stats.created + 1 },
       doWrite args srcPool fs e filename,
       acts ++ [EntryAction.created])

/-- How `process_entries` obtained its input: missing input file, JSON
parse failure, or a parsed entry list. -/
inductive LoadResult
  | missingFile
  | invalidJSON
  | parsed (entries : List Entry)

/-- `process_entries(args)` from the source, returning the exit code, the
statistics, the final filesystem, and the per-entry action trace.  In the
typed model no per-entry exception can fire, so `errors` stays 0; the
final line `return 0 if stats['errors'] == 0 else 1` is carried over
verbatim. -/
def process_entries (load : LoadResult) (args : Args) (srcPool : List Str)
    (fs : FS) : Int × Stats × FS × List EntryAction :=
  match load with
  | .missingFile => (1, initStats, fs, [])
  | .invalidJSON => (1, initStats, fs, [])
  | .parsed entries =>
    if entries = [] then (0, initStats, fs, [])
    else
      let fs1 := if !args.dryRun then { fs with dirsMade := true } else fs
      let r := entries.foldl (step args srcPool) (initStats, fs1, [])
      let fs3 := if !args.dryRun then { r.2.1 with logRuns := r.2.1.logRuns + 1 }
        else r.2.1
      ((if r.1.errors = 0 then 0 else 1), r.1, fs3, r.2.2)

-- ### C7: exit status

/-- Distinct filenames in a directory listing. -/
def uniqNames (files : List (Str × Str)) : Prop :=
  List.Pairwise (fun f g : Str × Str => f.1 ≠ g.1) files

/-- The files matching one identifier-prefix pattern. -/
def filterKey (files : List (Str × Str)) (u8 : Str) : List (Str × Str) :=
  files.filter (fun p => matchesPattern p.1 u8)

/-- The identifier prefix actually embedded in the derived filename
(`entry.get('uuid', 'UNKNOWN')[:8]`). -/
def effKey (e : Entry) : Str := (e.uuid?.getD ("UNKNOWN".toList)).take 8

/-- Well-formed identifier for one entry: absent, or non-empty,
alphanumeric, and with an 8-prefix distinct from the `UNKNOWN` literal. -/
def uuidOK (e : Entry) : Prop :=
  match e.uuid? with
  | none => True
  | some u => u ≠ [] ∧ (∀ c ∈ u, c.isAlphanum = true) ∧
      u.take 8 ≠ "UNKNOWN".toList

/-- The source-pool search of `copy_photos` for one photo. -/
def photoSource (srcPool : List Str) (p : Photo) : Option Str :=
  let photo_type_raw := (p.type?.getD ("jpeg".toList)).map Char.toLower
  let photo_type := normalize_extension photo_type_raw
  let cands : List Str :=
    [p.md5 ++ ".".toList ++ photo_type_raw, p.md5 ++ ".".toList ++ photo_type,
     p.identifier ++ ".".toList ++ photo_type_raw,
     p.identifier ++ ".".toList ++ photo_type,
     p.md5 ++ ".jpeg".toList, p.identifier ++ ".jpeg".toList,
     p.md5 ++ ".jpg".toList, p.identifier ++ ".jpg".toList]
  match cands.find? (fun n => decide (n ∈ srcPool)) with
  | some n => some n
  | none =>
    ((["jpg", "jpeg", "png", "gif", "heic"] : List String).map
      (fun ex : String => p.md5 ++ ".".toList ++ ex.toList)).find?
      (fun n => decide (n ∈ srcPool))

/-- The destination name of one photo. -/
def photoDest (p : Photo) : Str :=
  p.identifier ++ ".".toList ++
    normalize_extension ((p.type?.getD ("jpeg".toList)).map Char.toLower)

/-- Photos of `e` whose source was found are already present. -/
def photosDone (e : Entry) (srcPool : List Str) (photoFiles : List Str) : Prop :=
  ∀ p ∈ e.photos, (∃ s, photoSource srcPool p = some s) →
    photoDest p ∈ photoFiles

/-- The file kept for `e` by an update-mode run against the directory
`fs0files`: the matched file when the entry is CURRENT there, else
`none` (the run will write the freshly derived file). -/
def reconKeep (fs0files : List (Str × Str)) (e : Entry) : Option (Str × Str) :=
  match find_existing_file fs0files (uuid8Of e) with
  | some nc =>
    if isCurrentTest (extract_modified_date_from_file nc.2) (e.modifiedDate?.getD [])
    then some nc else none
  | none => none

/-- The single file that represents `e` after one update-mode run that
started from `fs0files`. -/
def run1File (fs0files : List (Str × Str)) (e : Entry) : Str × Str :=
  match reconKeep fs0files e with
  | some nc => nc
  | none => (generate_filename e, entryContentOf e)

/-- Cross-run pairwise compatibility of two entries. -/
def pairOK (a b : Entry) : Prop :=
  (∀ u v, a.uuid? = some u → b.uuid? = some v → u.take 8 ≠ v.take 8) ∧
  (a.uuid? = none → b.uuid? = none → generate_filename a ≠ generate_filename b)

/-- Well-formed initial directory for an export: unique names, no name
ending in `().md`, at most one match per entry key. -/
def WFInitFS (es : List Entry) (fs0files : List (Str × Str)) : Prop :=
  uniqNames fs0files ∧
  (∀ f ∈ fs0files, ¬ matchesPattern f.1 [] = true) ∧
  (∀ e ∈ es, (filterKey fs0files (uuid8Of e)).length ≤ 1)

/-- Invariant of the first run's fold: `pre` processed, `suf` to come. -/
def Inv1 (srcPool : List Str) (fs0files : List (Str × Str))
    (pre suf : List Entry) (fs : FS) : Prop :=
  uniqNames fs.files ∧
  (∀ f ∈ fs.files, ¬ matchesPattern f.1 [] = true) ∧
  (∀ e ∈ suf, ∀ u, e.uuid? = some u →
    filterKey fs.files (uuid8Of e) = filterKey fs0files (uuid8Of e)) ∧
  (∀ e ∈ pre, ¬ e.text?.getD [] = [] → ∀ u, e.uuid? = some u →
    filterKey fs.files (uuid8Of e) = [run1File fs0files e]) ∧
  (∀ e ∈ pre, ¬ e.text?.getD [] = [] → e.uuid? = none →
    (generate_filename e, entryContentOf e) ∈ fs.files) ∧
  (∀ e ∈ pre, ¬ e.text?.getD [] = [] → reconKeep fs0files e = none →
    photosDone e srcPool fs.photoFiles)

/-- What the claim allows an entry's second-run classification to be
(plus the empty-text skip and the no-identifier re-creation, see the
amended claim). -/
def run2OK (e : Entry) (a : EntryAction) : Prop :=
  (e.text?.getD [] = [] ∧ a = EntryAction.noText) ∨
  (¬ e.text?.getD [] = [] ∧ e.uuid? = none ∧ a = EntryAction.created) ∨
  (¬ e.text?.getD [] = [] ∧ (∃ u, e.uuid? = some u) ∧
    (a = EntryAction.skippedCurrent ∨ a = EntryAction.updated false))

theorem mem_collapseWSAux {c : Char} (b : Bool) (l : Str)
    (h : c ∈ collapseWSAux b l) : c = ' ' ∨ c ∈ l := by
  induction l generalizing b with
  | nil => simp [collapseWSAux] at h
  | cons d rest ih =>
    rw [collapseWSAux] at h
    cases hd : isPySpace d with
    | true =>
      rw [hd] at h
      simp only [if_true] at h
      cases b with
      | true =>
        simp only [if_true] at h
        rcases ih true h with h2 | h2
        · exact Or.inl h2
        · exact Or.inr (List.mem_cons_of_mem _ h2)
      | false =>
        simp only [Bool.false_eq_true, if_false, List.mem_cons] at h
        rcases h with h1 | h1
        · exact Or.inl h1
        · rcases ih true h1 with h2 | h2
          · exact Or.inl h2
          · exact Or.inr (List.mem_cons_of_mem _ h2)
    | false =>
      rw [hd] at h
      simp only [Bool.false_eq_true, if_false, List.mem_cons] at h
      rcases h with h1 | h1
      · exact Or.inr (by simp [h1])
      · rcases ih false h1 with h2 | h2
        · exact Or.inl h2
        · exact Or.inr (List.mem_cons_of_mem _ h2)

theorem mem_stripWS {c : Char} {l : Str} (h : c ∈ stripWS l) : c ∈ l := by
  unfold stripWS lstripWS rstripWS at h
  have h1 := (List.dropWhile_sublist (l := (l.reverse.dropWhile isPySpace).reverse)
    isPySpace).subset h
  have h2 := List.mem_reverse.mp h1
  have h3 := (List.dropWhile_sublist (l := l.reverse) isPySpace).subset h2
  exact List.mem_reverse.mp h3

theorem length_stripWS_le (l : Str) : (stripWS l).length ≤ l.length := by
  unfold stripWS lstripWS rstripWS
  calc (List.dropWhile isPySpace ((l.reverse.dropWhile isPySpace).reverse)).length
      ≤ ((l.reverse.dropWhile isPySpace).reverse).length :=
        (List.dropWhile_sublist _).length_le
    _ = (l.reverse.dropWhile isPySpace).length := by simp
    _ ≤ l.reverse.length := (List.dropWhile_sublist _).length_le
    _ = l.length := by simp

theorem mem_sanitizeTruncate {c : Char} {s : Str} {n : Nat}
    (h : c ∈ sanitizeTruncate s n) : c ∈ s := by
  unfold sanitizeTruncate at h
  by_cases hn : n < s.length
  · rw [if_pos hn] at h
    have h1 := mem_stripWS h
    have h2 : c ∈ s.take n := by
      rcases hm : lastSpaceIdx (s.take n) with _ | i
      · simp only [hm] at h1
        exact h1
      · simp only [hm] at h1
        by_cases h20 : 20 < i
        · rw [if_pos h20] at h1
          exact (List.take_sublist _ _).subset h1
        · rw [if_neg h20] at h1
          exact h1
    exact (List.take_sublist _ _).subset h2
  · rw [if_neg hn] at h; exact h

theorem length_sanitizeTruncate_le_of_lt {s : Str} {n : Nat}
    (hn : n < s.length) : (sanitizeTruncate s n).length ≤ n := by
  unfold sanitizeTruncate
  rw [if_pos hn]
  simp only
  have hb : ∀ t : Str, t.length ≤ n → (stripWS t).length ≤ n := by
    intro t ht
    have := length_stripWS_le t
    omega
  have htake : (s.take n).length ≤ n := by
    simp
  rcases hm : lastSpaceIdx (s.take n) with _ | i
  · simp only [hm]
    exact hb _ htake
  · simp only [hm]
    by_cases h20 : 20 < i
    · rw [if_pos h20]
      refine hb _ ?_
      calc ((s.take n).take i).length ≤ (s.take n).length :=
            (List.take_sublist _ _).length_le
        _ ≤ n := htake
    · rw [if_neg h20]
      exact hb _ htake

theorem untitled_no_bad : ∀ c ∈ ("Untitled".toList : Str), ¬ badFilenameChar c = true := by
  decide

/-- C3 helper: no forbidden character survives sanitization. -/
theorem sanitize_no_bad (text : Str) (n : Nat) :
    ∀ c ∈ sanitize_filename text n, ¬ badFilenameChar c = true := by
  intro c hc
  unfold sanitize_filename at hc
  by_cases h0 : text = []
  · rw [if_pos h0] at hc
    exact untitled_no_bad c hc
  · rw [if_neg h0] at hc
    simp only at hc
    set s3 := stripWS (collapseWS (text.filter (fun c => !badFilenameChar c))) with hs3
    have base : ∀ d : Char, d ∈ s3 → ¬ badFilenameChar d = true := by
      intro d hd
      rw [hs3] at hd
      rcases mem_collapseWSAux false _ (mem_stripWS hd) with h | h
      · subst h; decide
      · have := List.of_mem_filter h
        simp only [Bool.not_eq_true'] at this
        simp [this]
    by_cases h3 : s3 = []
    · rw [if_pos h3] at hc
      exact untitled_no_bad c hc
    · rw [if_neg h3] at hc
      by_cases h4 : sanitizeTruncate s3 n = []
      · rw [if_pos h4] at hc
        exact untitled_no_bad c hc
      · rw [if_neg h4] at hc
        exact base c (mem_sanitizeTruncate hc)

/-- C3 helper: the sanitized name has at most `max n 8` characters
(8 = length of the `Untitled` fallback). -/
theorem sanitize_length_le (text : Str) (n : Nat) (hn : 8 ≤ n) :
    (sanitize_filename text n).length ≤ n := by
  unfold sanitize_filename
  have hu : ("Untitled".toList : Str).length = 8 := by decide
  by_cases h0 : text = []
  · rw [if_pos h0]; omega
  · rw [if_neg h0]
    simp only
    set s3 := stripWS (collapseWS (text.filter (fun c => !badFilenameChar c))) with hs3
    by_cases h3 : s3 = []
    · rw [if_pos h3]; omega
    · rw [if_neg h3]
      by_cases h4 : sanitizeTruncate s3 n = []
      · rw [if_pos h4]; omega
      · rw [if_neg h4]
        by_cases hlen : n < s3.length
        · exact length_sanitizeTruncate_le_of_lt hlen
        · unfold sanitizeTruncate
          rw [if_neg hlen]
          omega

/-- C3 helper: the sanitized name is never empty (final `Untitled` guard). -/
theorem sanitize_ne_nil (text : Str) (n : Nat) :
    sanitize_filename text n ≠ [] := by
  unfold sanitize_filename
  have hu : ("Untitled".toList : Str) ≠ [] := by decide
  by_cases h0 : text = []
  · rw [if_pos h0]; exact hu
  · rw [if_neg h0]
    simp only
    set s3 := stripWS (collapseWS (text.filter (fun c => !badFilenameChar c))) with hs3
    by_cases h3 : s3 = []
    · rw [if_pos h3]; exact hu
    · rw [if_neg h3]
      by_cases h4 : sanitizeTruncate s3 n = []
      · rw [if_pos h4]; exact hu
      · rw [if_neg h4]; exact h4

/-- **C3.** Sanitization safety: for every input string the output of
`sanitize_filename` (the spec's `sanitizeForFilename`, at its default
`max_length = 50`) contains none of the characters `< > : " / \ | ? *`,
is at most 50 characters long, and is never empty (the function falls
back to the literal string `Untitled`). -/
theorem c3_sanitization_safety (text : Str) :
    (∀ c ∈ sanitize_filename text 50, ¬ badFilenameChar c = true) ∧
    (sanitize_filename text 50).length ≤ 50 ∧
    sanitize_filename text 50 ≠ [] :=
  ⟨sanitize_no_bad text 50, sanitize_length_le text 50 (by omega),
    sanitize_ne_nil text 50⟩

-- ### Calendar arithmetic (Python `datetime` subset used by the converter)

theorem weekdayOf_lt (y m d : Nat) : weekdayOf y m d < 7 :=
  Nat.mod_lt _ (by omega)

theorem weekdayOf_day_shift (y m d : Nat) (hd : 1 ≤ d) :
    weekdayOf y m d = (weekdayOf y m 1 + (d - 1)) % 7 := by
  unfold weekdayOf rataDie
  generalize 365 * (y - 1) + (y - 1) / 4 - (y - 1) / 100 + (y - 1) / 400 +
    daysBeforeMonth y m = R
  omega

theorem addDays_same_month (k : Nat) :
    ∀ dt : DateTime, dt.day + k ≤ daysInMonth dt.year dt.month →
      addDays k dt = { dt with day := dt.day + k } := by
  induction k with
  | zero => intro dt _; rfl
  | succ n ih =>
    intro dt h
    have hlt : dt.day < daysInMonth dt.year dt.month := by omega
    show addDays n (nextDay dt) = _
    rw [nextDay, if_pos hlt]
    rw [ih { dt with day := dt.day + 1 } (by simpa using by omega)]
    simp
    omega

theorem secondSundayMarch_exists_unique (y : Nat) :
    isSecondSundayOfMarch y (8 + (6 - weekdayOf y 3 1) % 7) ∧
    ∀ d, isSecondSundayOfMarch y d → d = 8 + (6 - weekdayOf y 3 1) % 7 := by
  have hw := weekdayOf_lt y 3 1
  set w := weekdayOf y 3 1 with hwdef
  constructor
  · refine ⟨?_, by omega, by omega⟩
    rw [weekdayOf_day_shift y 3 _ (by omega), ← hwdef]
    omega
  · intro d hd
    obtain ⟨hsun, hd8, hd14⟩ := hd
    rw [weekdayOf_day_shift y 3 d (by omega), ← hwdef] at hsun
    omega

theorem firstSundayNovember_exists_unique (y : Nat) :
    isFirstSundayOfNovember y (1 + (6 - weekdayOf y 11 1) % 7) ∧
    ∀ d, isFirstSundayOfNovember y d → d = 1 + (6 - weekdayOf y 11 1) % 7 := by
  have hw := weekdayOf_lt y 11 1
  set w := weekdayOf y 11 1 with hwdef
  constructor
  · refine ⟨?_, by omega, by omega⟩
    rw [weekdayOf_day_shift y 11 _ (by omega), ← hwdef]
    omega
  · intro d hd
    obtain ⟨hsun, hd1, hd7⟩ := hd
    rw [weekdayOf_day_shift y 11 d (by omega), ← hwdef] at hsun
    omega

theorem is_dst_eq_spec (dt : DateTime) : is_dst dt = true ↔ dst_spec dt := by
  have hw1 := weekdayOf_lt dt.year 3 1
  have hw2 := weekdayOf_lt dt.year 11 1
  have hstart : addDays ((6 - weekdayOf dt.year 3 1) % 7 + 7)
      ⟨dt.year, 3, 1, 0, 0, 0⟩ =
      ⟨dt.year, 3, 8 + (6 - weekdayOf dt.year 3 1) % 7, 0, 0, 0⟩ := by
    rw [addDays_same_month _ _ (by show 1 + _ ≤ daysInMonth dt.year 3; simp [daysInMonth]; omega)]
    simp
    omega
  have hend : addDays ((6 - weekdayOf dt.year 11 1) % 7)
      ⟨dt.year, 11, 1, 0, 0, 0⟩ =
      ⟨dt.year, 11, 1 + (6 - weekdayOf dt.year 11 1) % 7, 0, 0, 0⟩ := by
    rw [addDays_same_month _ _ (by show 1 + _ ≤ daysInMonth dt.year 11; simp [daysInMonth]; omega)]
  unfold is_dst
  simp only [hstart, hend, Bool.and_eq_true]
  constructor
  · rintro ⟨hle, hlt⟩
    exact ⟨8 + (6 - weekdayOf dt.year 3 1) % 7, 1 + (6 - weekdayOf dt.year 11 1) % 7,
      (secondSundayMarch_exists_unique dt.year).1,
      (firstSundayNovember_exists_unique dt.year).1, hle, hlt⟩
  · rintro ⟨d1, d2, hd1, hd2, hle, hlt⟩
    have e1 := (secondSundayMarch_exists_unique dt.year).2 d1 hd1
    have e2 := (firstSundayNovember_exists_unique dt.year).2 d2 hd2
    subst e1
    subst e2
    exact ⟨hle, hlt⟩

/-- **C6.** Timezone conversion policy: (1) the daylight-saving test used in
local-time conversion accepts an instant exactly when it lies in
[second Sunday of March 00:00, first Sunday of November 00:00) of the
instant's own calendar year — the US rule recomputed per year; and (2) for
every timezone name outside the fixed lookup tables the offset falls back
to the hardcoded default Central offset `-6` (the code uses `-6` in both
the standard-time and the daylight-time branch). -/
theorem c6_timezone_policy :
    (∀ dt : DateTime, is_dst dt = true ↔ dst_spec dt) ∧
    (∀ (tz : Str) (dt : DateTime),
      tz ∉ TIMEZONE_OFFSETS_STD.map Prod.fst →
      tz ∉ TIMEZONE_OFFSETS_DST.map Prod.fst →
      get_timezone_offset tz dt = -6) := by
  constructor
  · exact is_dst_eq_spec
  · intro tz dt h1 h2
    unfold get_timezone_offset dictGet
    have f2 : TIMEZONE_OFFSETS_DST.find? (fun p => decide (p.1 = tz)) = none := by
      rw [List.find?_eq_none]
      intro p hp
      simp only [decide_eq_true_eq]
      intro he
      exact h2 (by rw [← he]; exact List.mem_map_of_mem Prod.fst hp)
    have f1 : TIMEZONE_OFFSETS_STD.find? (fun p => decide (p.1 = tz)) = none := by
      rw [List.find?_eq_none]
      intro p hp
      simp only [decide_eq_true_eq]
      intro he
      exact h1 (by rw [← he]; exact List.mem_map_of_mem Prod.fst hp)
    by_cases hdst : is_dst dt = true
    · rw [if_pos hdst, f2]
    · rw [if_neg hdst, f1]

/-- Witness for C6 at concrete inputs: 2024-07-04 12:00 is inside the DST
window (July 4 2024; the second Sunday of March 2024 is March 10 and the
first Sunday of November 2024 is November 3), and an unknown zone name
falls back to offset -6. -/
theorem c6_timezone_policy_witness :
    dst_spec ⟨2024, 7, 4, 12, 0, 0⟩ ∧
    get_timezone_offset "Mars/Olympus".toList ⟨2024, 7, 4, 12, 0, 0⟩ = -6 :=
  ⟨(c6_timezone_policy.1 ⟨2024, 7, 4, 12, 0, 0⟩).mp (by decide),
   c6_timezone_policy.2 "Mars/Olympus".toList ⟨2024, 7, 4, 12, 0, 0⟩
     (by decide) (by decide)⟩

-- ### ISO-8601 parsing and local-time conversion

/-- The derived filename always ends with `(<uuid8>).md`. -/
theorem generate_filename_suffix (e : Entry) :
    (("(".toList ++ (e.uuid?.getD ("UNKNOWN".toList)).take 8 ++ ").md".toList : Str)
        <:+ generate_filename e) := by
  unfold generate_filename
  refine ⟨(match convert_to_local_time (e.creationDate?.getD [])
      (e.timeZone?.getD ("America/Chicago".toList)) with
    | some dt => formatDateOnly dt
    | none => "Unknown-Date".toList) ++ " ".toList ++
      extract_title (e.text?.getD []) ++ [' '], ?_⟩
  simp only
  have hsp : (" (".toList : Str) = [' '] ++ "(".toList := by decide
  rw [hsp]
  simp [List.append_assoc]

/-- **C5.** Filename suffix stability: the derived filename ends with the
parenthesized suffix `(<first 8 chars of the identifier>).md`; that suffix
is unchanged under any change of the entry's text (title and body both
derive from `text`); and an identifier shorter than 8 characters is used
in full, with no padding and no error. -/
theorem c5_filename_suffix_stability (e : Entry) (t : Option Str) :
    (("(".toList ++ (e.uuid?.getD ("UNKNOWN".toList)).take 8 ++ ").md".toList : Str)
        <:+ generate_filename e) ∧
    (({ e with text? := t } : Entry).uuid?.getD ("UNKNOWN".toList)).take 8 =
      (e.uuid?.getD ("UNKNOWN".toList)).take 8 ∧
    (∀ u : Str, e.uuid? = some u → u.length ≤ 8 →
      (e.uuid?.getD ("UNKNOWN".toList)).take 8 = u) := by
  refine ⟨generate_filename_suffix e, rfl, ?_⟩
  intro u hu hlen
  rw [hu]
  simp [List.take_of_length_le hlen]

/-- Witness for C5 at a concrete entry: identifier `AB12` (4 characters,
shorter than 8) is used in full in the parenthesized suffix. -/
theorem c5_filename_suffix_stability_witness :
    (("(".toList ++ ((some "AB12".toList).getD ("UNKNOWN".toList)).take 8 ++
        ").md".toList : Str)
      <:+ generate_filename { blankEntry with uuid? := some "AB12".toList }) ∧
    (({ blankEntry with uuid? := some "AB12".toList } : Entry).uuid?.getD
        ("UNKNOWN".toList)).take 8 = "AB12".toList :=
  ⟨(c5_filename_suffix_stability { blankEntry with uuid? := some "AB12".toList } none).1,
   (c5_filename_suffix_stability { blankEntry with uuid? := some "AB12".toList } none).2.2
     "AB12".toList rfl (by decide)⟩

-- ### Image-link rewriting (`convert_image_links`)

/-- **C4.** Resource link rewriting, at the spec's own test vectors:
a body `![](dayone-moment://AB12)` with a resource list declaring `AB12`
of type `jpg` becomes `![[photos/AB12.jpeg]]` (type normalized
`jpg → jpeg`); the empty-identifier token `![](dayone-moment://)` is
deleted entirely, leaving nothing; and an identifier absent from the
resource list defaults to extension `jpeg`. -/
theorem c4_resource_link_rewrite :
    convert_image_links "![](dayone-moment://AB12)".toList
        [{ identifier := "AB12".toList, md5 := [], type? := some "jpg".toList }] =
      "![[photos/AB12.jpeg]]".toList ∧
    convert_image_links "![](dayone-moment://)".toList [] = [] ∧
    convert_image_links "![](dayone-moment://AB12)".toList [] =
      "![[photos/AB12.jpeg]]".toList := by
  refine ⟨?_, ?_, ?_⟩ <;> decide

-- ### Lemmas for C9

theorem dropLit_self_append (p l : Str) : dropLit p (p ++ l) = some l := by
  induction p with
  | nil => rfl
  | cons c cs ih => simp [dropLit, ih]

theorem takeWhile_dropWhile_append {p : Char → Bool} {xs : Str} (ys : Str)
    (h : ∃ c ∈ xs, ¬ p c = true) :
    (xs ++ ys).dropWhile p = xs.dropWhile p ++ ys ∧
    ∃ d t, xs.dropWhile p = d :: t ∧ ¬ p d = true ∧ d ∈ xs := by
  induction xs with
  | nil => simp at h
  | cons x xt ih =>
    by_cases hx : p x = true
    · have hex : ∃ c ∈ xt, ¬ p c = true := by
        obtain ⟨c, hc, hpc⟩ := h
        rcases List.mem_cons.mp hc with rfl | hc2
        · exact absurd hx hpc
        · exact ⟨c, hc2, hpc⟩
      obtain ⟨h1, d, t, h2, h3, h4⟩ := ih hex
      refine ⟨?_, d, t, ?_, h3, List.mem_cons_of_mem _ h4⟩
      · simp only [List.cons_append, List.dropWhile_cons, hx, if_true]
        exact h1
      · simp only [List.dropWhile_cons, hx, if_true]
        exact h2
    · have hx' : p x = false := by revert hx; cases p x <;> simp
      refine ⟨?_, x, xt, ?_, hx, List.mem_cons_self x xt⟩
      · simp [List.dropWhile_cons, hx']
      · simp [List.dropWhile_cons, hx']

theorem tryAfterBracket_none {l : Str} (h : ']' ∉ l) : tryAfterBracket l = none := by
  induction l with
  | nil => rfl
  | cons c rest ih =>
    rw [tryAfterBracket]
    by_cases hn : c = '\n'
    · rw [if_pos hn]
    · rw [if_neg hn, if_neg (by intro hc; exact h (by simp [hc]))]
      exact ih (fun hc => h (List.mem_cons_of_mem _ hc))

theorem isAlphanum_ne_rparen {c : Char} (h : c.isAlphanum = true) : c ≠ ')' := by
  intro he; subst he; exact absurd h (by decide)

theorem isAlphanum_ne_rbracket {c : Char} (h : c.isAlphanum = true) : c ≠ ']' := by
  intro he; subst he; exact absurd h (by decide)

theorem isAlphanum_ne_bang {c : Char} (h : c.isAlphanum = true) : c ≠ '!' := by
  intro he; subst he; exact absurd h (by decide)

theorem convAuxF_no_bang {f : Str → Str} :
    ∀ (fuel : Nat) (l : Str), l.length ≤ fuel → (∀ c ∈ l, c ≠ '!') →
      convAuxF f fuel l = l := by
  intro fuel
  induction fuel with
  | zero => intro l _ _; rfl
  | succ k ih =>
    intro l hlen hno
    match l with
    | [] => rfl
    | c :: rest =>
      have hc : c ≠ '!' := hno c (List.mem_cons_self _ _)
      have hrl : rest.length ≤ k := by
        simp only [List.length_cons] at hlen
        omega
      have hrest : convAuxF f k rest = rest :=
        ih rest hrl (fun d hd => hno d (List.mem_cons_of_mem _ hd))
      rw [convAuxF]
      · rw [hrest]
      · intro r h1 _
        exact hc h1

theorem tryTail_none_of_nonhex {ident : Str}
    (halnum : ∀ c ∈ ident, c.isAlphanum = true)
    (hnonhex : ∃ c ∈ ident, ¬ isHexDigitChar c = true) :
    tryTail (schemeChars ++ (ident ++ [')'])) = none := by
  unfold tryTail
  rw [dropLit_self_append]
  obtain ⟨hdw, d, t, hdt, hnd, hdmem⟩ :=
    takeWhile_dropWhile_append (p := isHexDigitChar) [')'] hnonhex
  simp only
  rw [hdw, hdt]
  have hdne : d ≠ ')' := isAlphanum_ne_rparen (halnum d hdmem)
  split
  · rename_i r heq
    exfalso
    rw [List.cons_append] at heq
    injection heq with h1 _
    exact hdne h1
  · rfl

theorem tryAfterBracket_token_none {ident : Str}
    (halnum : ∀ c ∈ ident, c.isAlphanum = true)
    (hnonhex : ∃ c ∈ ident, ¬ isHexDigitChar c = true) :
    tryAfterBracket (']' :: (schemeChars ++ (ident ++ [')']))) = none := by
  rw [tryAfterBracket]
  rw [if_neg (by decide), if_pos rfl]
  rw [tryTail_none_of_nonhex halnum hnonhex]
  apply tryAfterBracket_none
  intro hmem
  rcases List.mem_append.mp hmem with h | h
  · exact absurd h (by decide)
  · rcases List.mem_append.mp h with h | h
    · exact (isAlphanum_ne_rbracket (halnum _ h)) rfl
    · rcases List.eq_of_mem_singleton h with h
      exact absurd h (by decide)

/-- **C9.** (Implicit claim.)  The image-link rewriter only rewrites tokens
whose captured identifier is entirely hexadecimal: a token
`![](dayone-moment://<ident>)` whose identifier contains any
non-hexadecimal character (here: identifiers of ordinary alphanumeric
characters, which excludes regex metacharacters) is left unchanged,
whatever the resource list contains. -/
theorem c9_nonhex_token_unchanged (ident : Str) (photos : List Photo)
    (halnum : ∀ c ∈ ident, c.isAlphanum = true)
    (hnonhex : ∃ c ∈ ident, ¬ isHexDigitChar c = true) :
    convert_image_links ("![](dayone-moment://".toList ++ ident ++ [')']) photos =
      "![](dayone-moment://".toList ++ ident ++ [')'] := by
  have htok : "![](dayone-moment://".toList ++ ident ++ [')'] =
      '!' :: '[' :: (']' :: (schemeChars ++ (ident ++ [')']))) := by
    show ('!' :: '[' :: ']' :: schemeChars) ++ ident ++ [')'] = _
    simp [List.append_assoc]
  have hsch : ∀ c ∈ schemeChars, c ≠ '!' := by decide
  have hnobang : ∀ c ∈ '[' :: (']' :: (schemeChars ++ (ident ++ [')']))), c ≠ '!' := by
    intro c hc
    rcases List.mem_cons.mp hc with rfl | hc
    · decide
    · rcases List.mem_cons.mp hc with rfl | hc
      · decide
      · rcases List.mem_append.mp hc with h | h
        · exact hsch c h
        · rcases List.mem_append.mp h with h | h
          · exact isAlphanum_ne_bang (halnum _ h)
          · rcases List.eq_of_mem_singleton h with rfl
            decide
  unfold convert_image_links
  rw [if_neg (by rw [htok]; exact List.cons_ne_nil _ _)]
  rw [htok]
  have hlen : ('!' :: '[' :: (']' :: (schemeChars ++ (ident ++ [')'])))).length =
      21 + ident.length := by
    simp [schemeChars]
    omega
  rw [hlen]
  have h21 : 21 + ident.length = (20 + ident.length) + 1 := by omega
  rw [h21, convAuxF]
  rw [tryAfterBracket_token_none halnum hnonhex]
  simp only
  rw [convAuxF_no_bang (20 + ident.length)
    ('[' :: (']' :: (schemeChars ++ (ident ++ [')'])))) (by simp [schemeChars]; omega) hnobang]

/-- Witness for C9: the token with identifier `GZ12` (`G` and `Z` are
alphanumeric but not hexadecimal) passes through unchanged. -/
theorem c9_nonhex_token_unchanged_witness :
    convert_image_links ("![](dayone-moment://".toList ++ "GZ12".toList ++ [')']) [] =
      "![](dayone-moment://".toList ++ "GZ12".toList ++ [')'] :=
  c9_nonhex_token_unchanged "GZ12".toList [] (by decide) (by decide)

-- ### Weather, frontmatter, and full document content

/-- **C7.** Exit status: 1 when the input path is missing or the input is
not valid JSON; 0 when the input parses but contains zero entries; and
otherwise 0 exactly when the per-entry error counter is zero after all
entries are processed (the loop's final line is
`return 0 if stats['errors'] == 0 else 1`). -/
theorem c7_exit_status (args : Args) (srcPool : List Str) (fs : FS) :
    (process_entries LoadResult.missingFile args srcPool fs).1 = 1 ∧
    (process_entries LoadResult.invalidJSON args srcPool fs).1 = 1 ∧
    (process_entries (LoadResult.parsed []) args srcPool fs).1 = 0 ∧
    (∀ entries : List Entry, entries ≠ [] →
      ((process_entries (LoadResult.parsed entries) args srcPool fs).1 = 0 ↔
        (process_entries (LoadResult.parsed entries) args srcPool fs).2.1.errors
          = 0)) := by
  refine ⟨rfl, rfl, rfl, ?_⟩
  intro entries hne
  simp only [process_entries]
  rw [if_neg hne]
  simp only
  by_cases he :
      (entries.foldl (step args srcPool)
        (initStats, if !args.dryRun then { fs with dirsMade := true } else fs,
          [])).1.errors = 0
  · rw [if_pos he]
    exact ⟨fun _ => he, fun _ => rfl⟩
  · rw [if_neg he]
    constructor
    · intro h0
      exact absurd h0 (by decide)
    · intro hr
      exact absurd hr he

/-- Witness for C7 at concrete inputs (one nonempty entry list). -/
theorem c7_exit_status_witness :
    (process_entries (LoadResult.parsed [blankEntry]) ⟨false, false, false⟩ []
        ⟨[], [], false, 0⟩).1 = 0 ↔
      (process_entries (LoadResult.parsed [blankEntry]) ⟨false, false, false⟩ []
        ⟨[], [], false, 0⟩).2.1.errors = 0 :=
  (c7_exit_status ⟨false, false, false⟩ [] ⟨[], [], false, 0⟩).2.2.2 [blankEntry]
    (by simp)

-- ### C8: preview (dry-run) frame property

theorem doWrite_dryRun {args : Args} (hdry : args.dryRun = true)
    (srcPool : List Str) (fs : FS) (e : Entry) (filename : Str) :
    doWrite args srcPool fs e filename = fs := by
  unfold doWrite
  rw [hdry]
  simp

theorem step_dryRun_fs {args : Args} (hdry : args.dryRun = true)
    (srcPool : List Str) (acc : Stats × FS × List EntryAction) (e : Entry) :
    (step args srcPool acc e).2.1 = acc.2.1 := by
  unfold step
  by_cases ht : e.text?.getD [] = []
  · rw [if_pos ht]
  · rw [if_neg ht]
    simp only
    cases hfind : find_existing_file acc.2.1.files (uuid8Of e) with
    | none => simp [doWrite_dryRun hdry]
    | some pr =>
      obtain ⟨exName, exContent⟩ := pr
      by_cases hu : args.update = true
      · by_cases hcur : isCurrentTest (extract_modified_date_from_file exContent)
            (e.modifiedDate?.getD []) = true
        · simp [hu, hcur]
        · simp [hu, hcur, hdry, doWrite_dryRun hdry]
      · simp [hu]

theorem foldl_step_dryRun_fs {args : Args} (hdry : args.dryRun = true)
    (srcPool : List Str) :
    ∀ (entries : List Entry) (acc : Stats × FS × List EntryAction),
      (entries.foldl (step args srcPool) acc).2.1 = acc.2.1 := by
  intro entries
  induction entries with
  | nil => intro acc; rfl
  | cons e rest ih =>
    intro acc
    rw [List.foldl_cons]
    rw [ih (step args srcPool acc e)]
    exact step_dryRun_fs hdry srcPool acc e

/-- **C8.** Preview-mode frame property: with the dry-run flag set, a full
run leaves the filesystem model untouched — no directory creation, no
entry file written or deleted, no photo copied, no log record appended —
while the statistics and the action trace are still produced. -/
theorem c8_dry_run_frame (load : LoadResult) (args : Args)
    (hdry : args.dryRun = true) (srcPool : List Str) (fs : FS) :
    (process_entries load args srcPool fs).2.2.1 = fs := by
  cases load with
  | missingFile => rfl
  | invalidJSON => rfl
  | parsed entries =>
    simp only [process_entries]
    by_cases hne : entries = []
    · rw [if_pos hne]
    · rw [if_neg hne]
      simp only [hdry, Bool.not_true, Bool.false_eq_true, if_false]
      exact foldl_step_dryRun_fs hdry srcPool entries (initStats, fs, [])

/-- Witness for C8: a dry run over one concrete entry returns the very
filesystem it was given. -/
theorem c8_dry_run_frame_witness :
    (process_entries
        (LoadResult.parsed [{ blankEntry with text? := some "x".toList }])
        ⟨true, true, false⟩ [] ⟨[], [], false, 0⟩).2.2.1 =
      (⟨[], [], false, 0⟩ : FS) :=
  c8_dry_run_frame
    (LoadResult.parsed [{ blankEntry with text? := some "x".toList }])
    ⟨true, true, false⟩ rfl [] ⟨[], [], false, 0⟩

-- ### Suffix-pattern uniqueness and C10

/-- If `(u).md` is a suffix of `(v).md` and `v` contains no `(`,
the two identifiers are equal. -/
theorem pattern_eq_of_suffix {u v : Str} (hpv : '(' ∉ v)
    (h : ("(".toList ++ u ++ ").md".toList : Str) <:+
      ("(".toList ++ v ++ ").md".toList : Str)) : u = v := by
  obtain ⟨w, hw⟩ := h
  cases w with
  | nil =>
    rw [List.nil_append] at hw
    have h2 := hw
    simp only [List.append_assoc] at h2
    exact List.append_cancel_right (List.append_cancel_left h2)
  | cons c w' =>
    exfalso
    have hv' : ("(".toList ++ v ++ ").md".toList : Str) =
        '(' :: (v ++ ").md".toList) := by
      simp
    have hu' : ("(".toList ++ u ++ ").md".toList : Str) =
        '(' :: (u ++ ").md".toList) := by
      simp
    rw [hv', hu', List.cons_append] at hw
    injection hw with hc hrest
    have hmem : '(' ∈ w' ++ '(' :: (u ++ ").md".toList) := by
      apply List.mem_append_right
      exact List.mem_cons_self _ _
    rw [hrest] at hmem
    rcases List.mem_append.mp hmem with h1 | h1
    · exact hpv h1
    · revert h1; decide

/-- A filename matches the pattern for at most one `(`-free identifier. -/
theorem matchesPattern_unique {name u v : Str} (hpu : '(' ∉ u) (hpv : '(' ∉ v)
    (hu : matchesPattern name u = true) (hv : matchesPattern name v = true) :
    u = v := by
  unfold matchesPattern at hu hv
  rw [decide_eq_true_eq] at hu hv
  rcases List.suffix_or_suffix_of_suffix hu hv with h | h
  · exact pattern_eq_of_suffix hpv h
  · exact (pattern_eq_of_suffix hpu h).symm

theorem find_existing_file_eq_none {files : List (Str × Str)} {u8 : Str}
    (h : ∀ f ∈ files, ¬ matchesPattern f.1 u8 = true) :
    find_existing_file files u8 = none := by
  unfold find_existing_file
  rw [List.head?_eq_none_iff, List.filter_eq_nil_iff]
  exact h

theorem mem_writeFile {files : List (Str × Str)} {name content : Str}
    {f : Str × Str} (h : f ∈ writeFile files name content) :
    f ∈ files ∨ f = (name, content) := by
  unfold writeFile at h
  by_cases ha : files.any (fun p => decide (p.1 = name)) = true
  · rw [if_pos ha] at h
    obtain ⟨p, hp, hpf⟩ := List.mem_map.mp h
    by_cases hpn : p.1 = name
    · right
      rw [← hpf, if_pos hpn]
    · left
      rw [← hpf, if_neg hpn]
      exact hp
  · rw [if_neg ha] at h
    rcases List.mem_append.mp h with h1 | h1
    · exact Or.inl h1
    · exact Or.inr (List.eq_of_mem_singleton h1)

/-- The filename derived for an entry without a `uuid` matches the
`(UNKNOWN)` pattern and therefore not the empty-identifier pattern. -/
theorem generate_filename_no_uuid_pattern {e : Entry} (huuid : e.uuid? = none) :
    matchesPattern (generate_filename e) ("UNKNOWN".toList) = true ∧
    ¬ matchesPattern (generate_filename e) [] = true := by
  have hsfx := generate_filename_suffix e
  rw [huuid] at hsfx
  have htake : (("UNKNOWN".toList : Str).take 8) = "UNKNOWN".toList := by decide
  rw [Option.getD_none, htake] at hsfx
  have hm : matchesPattern (generate_filename e) ("UNKNOWN".toList) = true := by
    unfold matchesPattern
    rw [decide_eq_true_eq]
    exact hsfx
  refine ⟨hm, ?_⟩
  intro hempty
  have := matchesPattern_unique (u := ([] : Str)) (v := "UNKNOWN".toList)
    (by decide) (by decide) hempty hm
  exact absurd this (by decide)

/-- **C10.** (Implicit claim.)  For an entry lacking a `uuid`: the derived
filename carries the literal `UNKNOWN` prefix in its parenthesized suffix
while the reconciliation key is the empty string; the existing-file search
therefore finds nothing (in a directory whose files never match the empty
pattern — in particular the converter's own outputs never do), so every
run classifies the entry as NEW, counts it as created, and rewrites the
same `UNKNOWN`-suffixed filename; and the written directory again
contains no file matching the empty pattern, so the next run repeats
this. -/
theorem c10_missing_uuid_recreated (args : Args) (srcPool : List Str)
    (acc : Stats × FS × List EntryAction) (e : Entry)
    (huuid : e.uuid? = none) (htext : ¬ e.text?.getD [] = [])
    (hdry : args.dryRun = false)
    (hfs : ∀ f ∈ acc.2.1.files, ¬ matchesPattern f.1 [] = true) :
    uuid8Of e = [] ∧
    ("(UNKNOWN).md".toList : Str) <:+ generate_filename e ∧
    find_existing_file acc.2.1.files (uuid8Of e) = none ∧
    (step args srcPool acc e).2.2 = acc.2.2 ++ [EntryAction.created] ∧
    (step args srcPool acc e).1.created = acc.1.created + 1 ∧
    (step args srcPool acc e).2.1.files =
      writeFile acc.2.1.files (generate_filename e) (entryContentOf e) ∧
    (∀ f ∈ (step args srcPool acc e).2.1.files,
      ¬ matchesPattern f.1 [] = true) := by
  have h1 : uuid8Of e = [] := by simp [uuid8Of, huuid]
  have hpat := generate_filename_no_uuid_pattern huuid
  have h2 : ("(UNKNOWN).md".toList : Str) <:+ generate_filename e := by
    have hsfx := generate_filename_suffix e
    rw [huuid] at hsfx
    have htake : ((some ("UNKNOWN".toList) |>.getD ("UNKNOWN".toList) : Str)).take 8 =
        "UNKNOWN".toList := by decide
    rw [Option.getD_none] at hsfx
    have heq : ("(".toList ++ ("UNKNOWN".toList : Str).take 8 ++ ").md".toList : Str) =
        "(UNKNOWN).md".toList := by decide
    rw [heq] at hsfx
    exact hsfx
  have h3 : find_existing_file acc.2.1.files (uuid8Of e) = none := by
    rw [h1]
    exact find_existing_file_eq_none hfs
  have hstep :
      step args srcPool acc e =
        ({ acc.1 with total := acc.1.total + 1, created := acc.1.created + 1 },
         doWrite args srcPool acc.2.1 e (generate_filename e),
         acc.2.2 ++ [EntryAction.created]) := by
    unfold step
    rw [if_neg htext]
    simp only [h3]
  have hdw : doWrite args srcPool acc.2.1 e (generate_filename e) =
      { acc.2.1 with
        files := writeFile acc.2.1.files (generate_filename e) (entryContentOf e),
        photoFiles := copy_photos e srcPool false acc.2.1.photoFiles } := by
    unfold doWrite
    rw [hdry]
    simp
  refine ⟨h1, h2, h3, ?_, ?_, ?_, ?_⟩
  · rw [hstep]
  · rw [hstep]
  · rw [hstep, hdw]
  · intro f hf
    rw [hstep, hdw] at hf
    simp only at hf
    rcases mem_writeFile hf with h | h
    · exact hfs f h
    · rw [h]
      exact hpat.2

/-- Witness for C10 at a concrete entry without a `uuid`, in an empty
output directory. -/
theorem c10_missing_uuid_recreated_witness :
    (step ⟨true, false, false⟩ []
        (initStats, (⟨[], [], false, 0⟩ : FS), [])
        { blankEntry with text? := some "x".toList }).2.2 =
      [] ++ [EntryAction.created] :=
  (c10_missing_uuid_recreated ⟨true, false, false⟩ []
    (initStats, (⟨[], [], false, 0⟩ : FS), [])
    { blankEntry with text? := some "x".toList }
    rfl (by decide) rfl (by simp)).2.2.2.1

-- ### String-order totality and C2

theorem strLeB_eq_not_strLtB : ∀ a b : Str, strLeB a b = !strLtB b a := by
  intro a
  induction a with
  | nil =>
    intro b
    cases b <;> simp [strLeB, strLtB]
  | cons x xs ih =>
    intro b
    cases b with
    | nil => simp [strLeB, strLtB]
    | cons y ys =>
      unfold strLeB strLtB
      by_cases hxy : x = y
      · subst hxy
        rw [if_pos rfl, if_pos rfl]
        have hthis := ih ys
        unfold strLeB at hthis
        rw [show (decide ((x :: xs : Str) = x :: ys)) = decide (xs = ys) by simp]
        exact hthis
      · rw [if_neg hxy, if_neg (Ne.symm hxy)]
        have hne : decide ((x :: xs : Str) = y :: ys) = false := by simp [hxy]
        rw [hne, Bool.or_false]
        rcases lt_trichotomy x y with h | h | h
        · rw [decide_eq_true h, decide_eq_false (lt_asymm h)]
          rfl
        · exact absurd h hxy
        · rw [decide_eq_false (lt_asymm h), decide_eq_true h]
          rfl

theorem step_found_current {args : Args} {srcPool : List Str}
    {acc : Stats × FS × List EntryAction} {e : Entry} {exName exContent : Str}
    (htext : ¬ e.text?.getD [] = []) (hupd : args.update = true)
    (hfind : find_existing_file acc.2.1.files (uuid8Of e) = some (exName, exContent))
    (hcur : isCurrentTest (extract_modified_date_from_file exContent)
      (e.modifiedDate?.getD []) = true) :
    step args srcPool acc e =
      ({ acc.1 with total := acc.1.total + 1, skipped := acc.1.skipped + 1 },
       acc.2.1, acc.2.2 ++ [EntryAction.skippedCurrent]) := by
  unfold step
  rw [if_neg htext]
  simp only [hfind, hupd, hcur, if_true]

theorem step_found_stale {args : Args} {srcPool : List Str}
    {acc : Stats × FS × List EntryAction} {e : Entry} {exName exContent : Str}
    (htext : ¬ e.text?.getD [] = []) (hupd : args.update = true)
    (hdry : args.dryRun = false)
    (hfind : find_existing_file acc.2.1.files (uuid8Of e) = some (exName, exContent))
    (hcur : ¬ isCurrentTest (extract_modified_date_from_file exContent)
      (e.modifiedDate?.getD []) = true) :
    step args srcPool acc e =
      ({ acc.1 with total := acc.1.total + 1, updated := acc.1.updated + 1 },
       { acc.2.1 with
         files := writeFile
           (if exName ≠ generate_filename e then deleteFile acc.2.1.files exName
            else acc.2.1.files)
           (generate_filename e) (entryContentOf e),
         photoFiles := copy_photos e srcPool false acc.2.1.photoFiles },
       acc.2.2 ++ [EntryAction.updated (decide (exName ≠ generate_filename e))]) := by
  unfold step
  rw [if_neg htext]
  simp only [hfind, hupd, if_true, hcur, if_false]
  unfold doWrite
  rw [hdry]
  by_cases hren : exName ≠ generate_filename e
  · have hd : decide (exName ≠ generate_filename e) = true := decide_eq_true hren
    simp [hd, hren]
  · have hd : decide (exName ≠ generate_filename e) = false := decide_eq_false hren
    simp [hd, hren]

theorem step_found_blocked {args : Args} {srcPool : List Str}
    {acc : Stats × FS × List EntryAction} {e : Entry} {exName exContent : Str}
    (htext : ¬ e.text?.getD [] = []) (hupd : args.update = false)
    (hfind : find_existing_file acc.2.1.files (uuid8Of e) = some (exName, exContent)) :
    step args srcPool acc e =
      ({ acc.1 with total := acc.1.total + 1, skipped := acc.1.skipped + 1 },
       acc.2.1, acc.2.2 ++ [EntryAction.skippedExists]) := by
  unfold step
  rw [if_neg htext]
  simp only [hfind, hupd, Bool.false_eq_true, if_false]

theorem step_new {args : Args} {srcPool : List Str}
    {acc : Stats × FS × List EntryAction} {e : Entry}
    (htext : ¬ e.text?.getD [] = []) (hdry : args.dryRun = false)
    (hfind : find_existing_file acc.2.1.files (uuid8Of e) = none) :
    step args srcPool acc e =
      ({ acc.1 with total := acc.1.total + 1, created := acc.1.created + 1 },
       { acc.2.1 with
         files := writeFile acc.2.1.files (generate_filename e) (entryContentOf e),
         photoFiles := copy_photos e srcPool false acc.2.1.photoFiles },
       acc.2.2 ++ [EntryAction.created]) := by
  unfold step
  rw [if_neg htext]
  simp only [hfind]
  unfold doWrite
  rw [hdry]
  simp

theorem step_noText {args : Args} {srcPool : List Str}
    {acc : Stats × FS × List EntryAction} {e : Entry}
    (htext : e.text?.getD [] = []) :
    step args srcPool acc e =
      ({ acc.1 with total := acc.1.total + 1, skipped := acc.1.skipped + 1 },
       acc.2.1, acc.2.2 ++ [EntryAction.noText]) := by
  unfold step
  rw [if_pos htext]

/-- **C2.** Update-mode reconciliation for an entry whose identifier prefix
matches an existing file, with update mode on and preview off.  The entry
is treated as STALE exactly when the matched file's recorded `modified:`
value is absent (no match, or stripping to the empty string) or the
entry's raw `modifiedDate` string is strictly greater than the recorded
value (Python compares these two timestamp strings lexicographically).
On STALE the old file is deleted first when the newly derived filename
differs, the new content is written under the new name, and the entry
counts as updated; otherwise nothing is written and the entry counts as
skipped. -/
theorem c2_update_reconciliation (args : Args) (srcPool : List Str)
    (acc : Stats × FS × List EntryAction) (e : Entry) (exName exContent : Str)
    (htext : ¬ e.text?.getD [] = []) (hupd : args.update = true)
    (hdry : args.dryRun = false)
    (hfind : find_existing_file acc.2.1.files (uuid8Of e) = some (exName, exContent)) :
    (¬ isCurrentTest (extract_modified_date_from_file exContent)
        (e.modifiedDate?.getD []) = true ↔
      (extract_modified_date_from_file exContent = none ∨
       extract_modified_date_from_file exContent = some [] ∨
       strLtB ((extract_modified_date_from_file exContent).getD [])
         (e.modifiedDate?.getD []) = true)) ∧
    (¬ isCurrentTest (extract_modified_date_from_file exContent)
        (e.modifiedDate?.getD []) = true →
      step args srcPool acc e =
        ({ acc.1 with total := acc.1.total + 1, updated := acc.1.updated + 1 },
         { acc.2.1 with
           files := writeFile
             (if exName ≠ generate_filename e then deleteFile acc.2.1.files exName
              else acc.2.1.files)
             (generate_filename e) (entryContentOf e),
           photoFiles := copy_photos e srcPool false acc.2.1.photoFiles },
         acc.2.2 ++ [EntryAction.updated (decide (exName ≠ generate_filename e))])) ∧
    (isCurrentTest (extract_modified_date_from_file exContent)
        (e.modifiedDate?.getD []) = true →
      step args srcPool acc e =
        ({ acc.1 with total := acc.1.total + 1, skipped := acc.1.skipped + 1 },
         acc.2.1, acc.2.2 ++ [EntryAction.skippedCurrent])) := by
  refine ⟨?_, ?_, ?_⟩
  · unfold isCurrentTest
    cases hx : extract_modified_date_from_file exContent with
    | none => simp
    | some s =>
      by_cases hs : s = []
      · subst hs
        simp
      · simp only [decide_eq_true_eq, Option.getD_some, Option.some.injEq]
        rw [show (decide (s ≠ [])) = true by simp [hs]]
        rw [Bool.true_and]
        rw [strLeB_eq_not_strLtB]
        constructor
        · intro h
          refine Or.inr (Or.inr ?_)
          revert h
          cases strLtB s (e.modifiedDate?.getD []) <;> simp
        · intro h hn
          rcases h with h | h | h
          · exact absurd h (by simp)
          · exact hs h
          · rw [h] at hn
            simp at hn
  · intro hcur
    exact step_found_stale htext hupd hdry hfind hcur
  · intro hcur
    exact step_found_current htext hupd hfind hcur

/-- Witness for C2: in a directory holding `old (ABCDEFGH).md` whose
frontmatter records `modified: 1`, an entry with `modifiedDate = "2"` is
stale (strictly newer by string comparison). -/
theorem c2_update_reconciliation_witness :
    (¬ isCurrentTest
        (extract_modified_date_from_file ("modified: 1".toList)) ("2".toList) = true ↔
      (extract_modified_date_from_file ("modified: 1".toList) = none ∨
       extract_modified_date_from_file ("modified: 1".toList) = some [] ∨
       strLtB ((extract_modified_date_from_file ("modified: 1".toList)).getD [])
         ("2".toList) = true)) :=
  (c2_update_reconciliation ⟨true, false, false⟩ []
    (initStats,
      (⟨[("old (ABCDEFGH).md".toList, "modified: 1".toList)], [], false, 0⟩ : FS),
      [])
    { blankEntry with
      uuid? := some "ABCDEFGH".toList
      text? := some "x".toList
      modifiedDate? := some "2".toList }
    "old (ABCDEFGH).md".toList "modified: 1".toList
    (by decide) rfl rfl (by decide)).1

-- ### List lemmas for the idempotence proof (C1)

theorem find_existing_file_eq_head (files : List (Str × Str)) (u8 : Str) :
    find_existing_file files u8 = (filterKey files u8).head? := rfl

theorem head?_eq_singleton {α : Type} {l : List α} {x : α}
    (h : l.head? = some x) (hlen : l.length ≤ 1) : l = [x] := by
  cases l with
  | nil => simp at h
  | cons a t =>
    cases t with
    | nil =>
      simp only [List.head?_cons, Option.some.injEq] at h
      rw [h]
    | cons b t2 => simp at hlen

theorem mem_of_filter_singleton {q : Str × Str → Bool}
    {files : List (Str × Str)} {x : Str × Str}
    (h : files.filter q = [x]) : x ∈ files ∧ q x = true := by
  have hx : x ∈ files.filter q := by rw [h]; exact List.mem_singleton_self x
  exact ⟨(List.mem_filter.mp hx).1, (List.mem_filter.mp hx).2⟩

theorem pairwise_name_inj {files : List (Str × Str)} (h : uniqNames files) :
    ∀ p ∈ files, ∀ q ∈ files, p.1 = q.1 → p = q := by
  induction files with
  | nil => intro p hp; simp at hp
  | cons a t ih =>
    intro p hp q hq hpq
    rcases List.mem_cons.mp hp with rfl | hp2
    · rcases List.mem_cons.mp hq with rfl | hq2
      · rfl
      · exact absurd hpq ((List.pairwise_cons.mp h).1 q hq2)
    · rcases List.mem_cons.mp hq with rfl | hq2
      · exact absurd hpq.symm ((List.pairwise_cons.mp h).1 p hp2)
      · exact ih (List.pairwise_cons.mp h).2 p hp2 q hq2 hpq

theorem writeFile_self_mem (files : List (Str × Str)) (n c : Str) :
    (n, c) ∈ writeFile files n c := by
  unfold writeFile
  by_cases ha : files.any (fun p => decide (p.1 = n)) = true
  · rw [if_pos ha]
    obtain ⟨p, hp, hpn⟩ := List.any_eq_true.mp ha
    rw [decide_eq_true_eq] at hpn
    refine List.mem_map.mpr ⟨p, hp, ?_⟩
    rw [if_pos hpn]
  · rw [if_neg ha]
    exact List.mem_append_right _ (List.mem_singleton_self _)

theorem writeFile_mem_other {files : List (Str × Str)} {n c m c' : Str}
    (h : (m, c') ∈ files) (hne : m ≠ n) : (m, c') ∈ writeFile files n c := by
  unfold writeFile
  by_cases ha : files.any (fun p => decide (p.1 = n)) = true
  · rw [if_pos ha]
    refine List.mem_map.mpr ⟨(m, c'), h, ?_⟩
    rw [if_neg hne]
  · rw [if_neg ha]
    exact List.mem_append_left _ h

theorem writeFile_self_id {files : List (Str × Str)} {n c : Str}
    (huniq : uniqNames files) (hmem : (n, c) ∈ files) :
    writeFile files n c = files := by
  unfold writeFile
  rw [if_pos (List.any_eq_true.mpr ⟨(n, c), hmem, by simp⟩)]
  have : ∀ p ∈ files, (if p.1 = n then (n, c) else p) = p := by
    intro p hp
    by_cases hpn : p.1 = n
    · rw [if_pos hpn]
      exact (pairwise_name_inj huniq p hp (n, c) hmem hpn).symm
    · rw [if_neg hpn]
  calc files.map (fun p => if p.1 = n then (n, c) else p)
      = files.map id := List.map_congr_left this
    _ = files := List.map_id files

theorem uniqNames_writeFile {files : List (Str × Str)} (n c : Str)
    (h : uniqNames files) : uniqNames (writeFile files n c) := by
  unfold writeFile
  by_cases ha : files.any (fun p => decide (p.1 = n)) = true
  · rw [if_pos ha]
    unfold uniqNames at h ⊢
    refine List.Pairwise.map _ ?_ h
    intro a b hab
    by_cases han : a.1 = n <;> by_cases hbn : b.1 = n
    · exact absurd (han.trans hbn.symm) hab
    · simp only [if_pos han, if_neg hbn]
      intro hcon
      exact hbn (by rw [← hcon])
    · simp only [if_neg han, if_pos hbn]
      intro hcon
      exact han (by rw [hcon])
    · simp only [if_neg han, if_neg hbn]
      exact hab
  · rw [if_neg ha]
    unfold uniqNames at h ⊢
    rw [List.pairwise_append]
    refine ⟨h, List.pairwise_singleton _ _, ?_⟩
    intro a hma b hmb
    rcases List.eq_of_mem_singleton hmb with rfl
    simp only
    intro hcon
    have : files.any (fun p => decide (p.1 = n)) = true :=
      List.any_eq_true.mpr ⟨a, hma, by simp [hcon]⟩
    exact ha this

theorem uniqNames_deleteFile {files : List (Str × Str)} (n : Str)
    (h : uniqNames files) : uniqNames (deleteFile files n) :=
  List.Pairwise.sublist (List.filter_sublist files) h

theorem mem_deleteFile_of_mem {files : List (Str × Str)} {n : Str}
    {f : Str × Str} (h : f ∈ files) (hne : f.1 ≠ n) :
    f ∈ deleteFile files n := by
  unfold deleteFile
  exact List.mem_filter.mpr ⟨h, by simp [hne]⟩

theorem mem_of_mem_deleteFile {files : List (Str × Str)} {n : Str}
    {f : Str × Str} (h : f ∈ deleteFile files n) : f ∈ files :=
  (List.mem_filter.mp h).1

theorem filter_name_map (q : Str → Bool) (f : Str × Str → Str × Str)
    (hf : ∀ p, (f p).1 = p.1) :
    ∀ l : List (Str × Str),
      List.filter (fun p => q p.1) (l.map f) =
        (List.filter (fun p => q p.1) l).map f := by
  intro l
  induction l with
  | nil => rfl
  | cons p rest ih =>
    simp only [List.map_cons, List.filter_cons, hf p]
    cases hq : q p.1
    · simp only [Bool.false_eq_true, if_false]
      exact ih
    · simp only [if_true, List.map_cons]
      rw [ih]

theorem writeFile_update_name_pres (n c : Str) :
    ∀ p : Str × Str, ((if p.1 = n then (n, c) else p) : Str × Str).1 = p.1 := by
  intro p
  by_cases hpn : p.1 = n
  · rw [if_pos hpn, hpn]
  · rw [if_neg hpn]

theorem filterKey_writeFile_no_match {files : List (Str × Str)} {n c u8 : Str}
    (hn : matchesPattern n u8 = false) :
    filterKey (writeFile files n c) u8 = filterKey files u8 := by
  unfold writeFile filterKey
  by_cases ha : files.any (fun p => decide (p.1 = n)) = true
  · rw [if_pos ha]
    rw [filter_name_map (fun s => matchesPattern s u8) _
      (writeFile_update_name_pres n c) files]
    have : ∀ p ∈ List.filter (fun p : Str × Str => matchesPattern p.1 u8) files,
        (if p.1 = n then (n, c) else p) = p := by
      intro p hp
      have hq := (List.mem_filter.mp hp).2
      have hpn : p.1 ≠ n := by
        intro hcon
        rw [hcon, hn] at hq
        exact absurd hq (by simp)
      rw [if_neg hpn]
    calc (List.filter (fun p : Str × Str => matchesPattern p.1 u8) files).map
          (fun p => if p.1 = n then (n, c) else p)
        = (List.filter (fun p : Str × Str => matchesPattern p.1 u8) files).map id :=
          List.map_congr_left this
      _ = _ := List.map_id _
  · rw [if_neg ha, List.filter_append]
    have h2 : List.filter (fun p : Str × Str => matchesPattern p.1 u8) [(n, c)]
        = [] := by
      simp [List.filter_cons, hn]
    rw [h2, List.append_nil]

theorem filterKey_writeFile_match {files : List (Str × Str)} {n c cOld u8 : Str}
    (hn : matchesPattern n u8 = true)
    (hfil : filterKey files u8 = [(n, cOld)]) :
    filterKey (writeFile files n c) u8 = [(n, c)] := by
  unfold writeFile filterKey
  have hmem := mem_of_filter_singleton (q := fun p => matchesPattern p.1 u8) hfil
  rw [if_pos (List.any_eq_true.mpr ⟨(n, cOld), hmem.1, by simp⟩)]
  rw [filter_name_map (fun s => matchesPattern s u8) _
    (writeFile_update_name_pres n c) files]
  unfold filterKey at hfil
  rw [hfil]
  simp

theorem filterKey_writeFile_append {files : List (Str × Str)} {n c u8 : Str}
    (hn : matchesPattern n u8 = true)
    (hnone : files.any (fun p => decide (p.1 = n)) = false) :
    filterKey (writeFile files n c) u8 = filterKey files u8 ++ [(n, c)] := by
  unfold writeFile filterKey
  rw [if_neg (by rw [hnone]; simp), List.filter_append]
  simp [List.filter_cons, hn]

theorem filterKey_deleteFile_no_match {files : List (Str × Str)} {n u8 : Str}
    (h : ∀ p ∈ files, matchesPattern p.1 u8 = true → p.1 ≠ n) :
    filterKey (deleteFile files n) u8 = filterKey files u8 := by
  unfold deleteFile filterKey
  rw [List.filter_filter]
  apply List.filter_congr
  intro p hp
  cases hq : matchesPattern p.1 u8
  · simp
  · have := h p hp (by rw [hq])
    simp [this]

theorem filterKey_deleteFile_own {files : List (Str × Str)} {n cOld u8 : Str}
    (hfil : filterKey files u8 = [(n, cOld)]) :
    filterKey (deleteFile files n) u8 = [] := by
  unfold deleteFile filterKey
  rw [List.filter_eq_nil_iff]
  intro p hp
  have hmem := List.mem_filter.mp hp
  have hne : p.1 ≠ n := by
    have := hmem.2
    simp only [Bool.not_eq_true'] at this
    simp only [decide_eq_false_iff_not] at this
    exact this
  intro hq
  have hpfil : p ∈ filterKey files u8 := by
    unfold filterKey
    exact List.mem_filter.mpr ⟨hmem.1, hq⟩
  rw [hfil] at hpfil
  rcases List.eq_of_mem_singleton hpfil with rfl
  exact hne rfl

-- ### Identifier-key facts for C1

theorem effKey_some {e : Entry} {u : Str} (h : e.uuid? = some u) :
    effKey e = u.take 8 := by
  unfold effKey
  rw [h]
  rfl

theorem effKey_none {e : Entry} (h : e.uuid? = none) :
    effKey e = "UNKNOWN".toList := by
  unfold effKey
  rw [h]
  decide

theorem uuid8Of_some {e : Entry} {u : Str} (h : e.uuid? = some u) :
    uuid8Of e = u.take 8 := by
  unfold uuid8Of
  rw [h]
  rfl

/-- The derived filename matches the pattern for the embedded key. -/
theorem gen_matches_effKey (e : Entry) :
    matchesPattern (generate_filename e) (effKey e) = true := by
  unfold matchesPattern
  rw [decide_eq_true_eq]
  exact generate_filename_suffix e

/-- The derived filename matches no other `(`-free key. -/
theorem gen_matches_only {e : Entry} {v : Str} (hv : '(' ∉ v)
    (he : '(' ∉ effKey e)
    (h : matchesPattern (generate_filename e) v = true) : v = effKey e :=
  matchesPattern_unique hv he h (gen_matches_effKey e)

theorem isAlphanum_ne_lparen {c : Char} (h : c.isAlphanum = true) : c ≠ '(' := by
  intro he; subst he; exact absurd h (by decide)

theorem take_ne_nil {u : Str} (h : u ≠ []) : u.take 8 ≠ [] := by
  cases u with
  | nil => exact absurd rfl h
  | cons c t => simp

theorem uuidOK_lparen_notin_effKey {e : Entry} (h : uuidOK e) :
    '(' ∉ effKey e := by
  unfold uuidOK at h
  cases hu : e.uuid? with
  | none => rw [effKey_none hu]; decide
  | some u =>
    rw [hu] at h
    rw [effKey_some hu]
    intro hmem
    have := h.2.1 '(' ((List.take_sublist 8 u).subset hmem)
    exact isAlphanum_ne_lparen this rfl

theorem uuidOK_effKey_ne_nil {e : Entry} {u : Str} (h : uuidOK e)
    (hu : e.uuid? = some u) : effKey e ≠ [] := by
  unfold uuidOK at h
  rw [hu] at h
  rw [effKey_some hu]
  exact take_ne_nil h.1

/-- For an entry with an identifier the loop key and the embedded key
coincide. -/
theorem uuid8Of_eq_effKey {e : Entry} {u : Str} (hu : e.uuid? = some u) :
    uuid8Of e = effKey e := by
  rw [uuid8Of_some hu, effKey_some hu]

-- ### Photo-copy lemmas for C1

theorem copyOnePhoto_eq (srcPool : List Str) (dryRun : Bool)
    (photoFiles : List Str) (p : Photo) :
    copyOnePhoto srcPool dryRun photoFiles p =
      match photoSource srcPool p with
      | none => photoFiles
      | some _ =>
        if decide (photoDest p ∈ photoFiles) then photoFiles
        else if dryRun then photoFiles
        else photoFiles ++ [photoDest p] := rfl

theorem copyOnePhoto_mono {srcPool : List Str} {d : Bool}
    {photoFiles : List Str} {p : Photo} {x : Str} (h : x ∈ photoFiles) :
    x ∈ copyOnePhoto srcPool d photoFiles p := by
  rw [copyOnePhoto_eq]
  cases photoSource srcPool p with
  | none => exact h
  | some s =>
    by_cases hd : photoDest p ∈ photoFiles
    · simp only [hd, decide_eq_true_eq, if_pos]
      exact h
    · rw [if_neg (by simpa using hd)]
      cases d
      · simp only [Bool.false_eq_true, if_false]
        exact List.mem_append_left _ h
      · simp only [if_true]
        exact h

theorem foldl_copyOnePhoto_mono {srcPool : List Str} {d : Bool} {x : Str} :
    ∀ (ps : List Photo) (photoFiles : List Str), x ∈ photoFiles →
      x ∈ ps.foldl (copyOnePhoto srcPool d) photoFiles := by
  intro ps
  induction ps with
  | nil => intro pf h; exact h
  | cons p rest ih =>
    intro pf h
    exact ih _ (copyOnePhoto_mono h)

theorem copyOnePhoto_establish {srcPool : List Str} {photoFiles : List Str}
    {p : Photo} {s : Str} (h : photoSource srcPool p = some s) :
    photoDest p ∈ copyOnePhoto srcPool false photoFiles p := by
  rw [copyOnePhoto_eq, h]
  by_cases hd : photoDest p ∈ photoFiles
  · simp only [hd, decide_eq_true_eq, if_pos]
  · rw [if_neg (by simpa using hd)]
    simp only [Bool.false_eq_true, if_false]
    exact List.mem_append_right _ (List.mem_singleton_self _)

theorem copy_photos_establish (e : Entry) (srcPool : List Str)
    (photoFiles : List Str) :
    photosDone e srcPool (copy_photos e srcPool false photoFiles) := by
  unfold photosDone copy_photos
  suffices h : ∀ (ps : List Photo) (pf : List Str), ∀ p ∈ ps,
      (∃ s, photoSource srcPool p = some s) →
      photoDest p ∈ ps.foldl (copyOnePhoto srcPool false) pf by
    intro p hp hs
    exact h e.photos photoFiles p hp hs
  intro ps
  induction ps with
  | nil => intro pf p hp; simp at hp
  | cons q rest ih =>
    intro pf p hp hs
    rcases List.mem_cons.mp hp with rfl | hp2
    · obtain ⟨s, hsrc⟩ := hs
      exact foldl_copyOnePhoto_mono rest _ (copyOnePhoto_establish hsrc)
    · exact ih _ p hp2 hs

theorem copy_photos_id {e : Entry} {srcPool : List Str} {photoFiles : List Str}
    (h : photosDone e srcPool photoFiles) :
    copy_photos e srcPool false photoFiles = photoFiles := by
  unfold photosDone at h
  unfold copy_photos
  revert h
  generalize e.photos = ps
  intro h
  induction ps with
  | nil => rfl
  | cons q rest ih =>
    rw [List.foldl_cons]
    have hq : copyOnePhoto srcPool false photoFiles q = photoFiles := by
      rw [copyOnePhoto_eq]
      cases hsrc : photoSource srcPool q with
      | none => rfl
      | some s =>
        have := h q (List.mem_cons_self _ _) ⟨s, hsrc⟩
        simp only [this, decide_eq_true_eq, if_pos]
    rw [hq]
    exact ih (fun p hp hs => h p (List.mem_cons_of_mem _ hp) hs)

-- ### C1: reconciliation outcome and the run-1 invariant

theorem reconKeep_some_current {fs0files : List (Str × Str)} {e : Entry}
    {nc : Str × Str} (h : reconKeep fs0files e = some nc) :
    isCurrentTest (extract_modified_date_from_file nc.2)
      (e.modifiedDate?.getD []) = true := by
  unfold reconKeep at h
  cases hf : find_existing_file fs0files (uuid8Of e) with
  | none =>
    simp only [hf] at h
    exact absurd h (by simp)
  | some mc =>
    simp only [hf] at h
    by_cases hc : isCurrentTest (extract_modified_date_from_file mc.2)
        (e.modifiedDate?.getD []) = true
    · rw [if_pos hc] at h
      injection h with h2
      rw [← h2]
      exact hc
    · rw [if_neg hc] at h
      exact absurd h (by simp)

theorem boolFalse {b : Bool} (h : ¬ b = true) : b = false := by
  cases b
  · rfl
  · exact absurd rfl h

/-- The derived filename does not match a `(`-free key other than its own. -/
theorem not_matches_gen_of_other_key {e : Entry} {v8 : Str} (hOKe : uuidOK e)
    (hv : '(' ∉ v8) (hne : v8 ≠ effKey e) :
    matchesPattern (generate_filename e) v8 = false := by
  cases h : matchesPattern (generate_filename e) v8
  · rfl
  · exact absurd (gen_matches_only hv (uuidOK_lparen_notin_effKey hOKe) h) hne

theorem any_name_false_of_filterKey_nil {files : List (Str × Str)} {n u8 : Str}
    (hfil : filterKey files u8 = []) (hn : matchesPattern n u8 = true) :
    files.any (fun p => decide (p.1 = n)) = false := by
  refine boolFalse ?_
  intro ha
  obtain ⟨p, hp, hpn⟩ := List.any_eq_true.mp ha
  rw [decide_eq_true_eq] at hpn
  have hq : matchesPattern p.1 u8 = true := by rw [hpn]; exact hn
  have : p ∈ filterKey files u8 := List.mem_filter.mpr ⟨hp, hq⟩
  rw [hfil] at this
  simp at this

theorem filterKey_nil_of_no_empty_match {files : List (Str × Str)}
    (h : ∀ f ∈ files, ¬ matchesPattern f.1 [] = true) :
    filterKey files [] = [] := by
  unfold filterKey
  rw [List.filter_eq_nil_iff]
  exact h

theorem run1_step (args : Args) (srcPool : List Str) (fs0files : List (Str × Str))
    (pre suf' : List Entry) (e : Entry) (acc : Stats × FS × List EntryAction)
    (hupd : args.update = true) (hdry : args.dryRun = false)
    (hOK : ∀ x ∈ pre ++ e :: suf', uuidOK x)
    (hpair : List.Pairwise pairOK (pre ++ e :: suf'))
    (hwf : WFInitFS (pre ++ e :: suf') fs0files)
    (hInv : Inv1 srcPool fs0files pre (e :: suf') acc.2.1) :
    Inv1 srcPool fs0files (pre ++ [e]) suf' (step args srcPool acc e).2.1 := by
  obtain ⟨huniq, hnopat, hsuf, hpreU, hpreN, hph⟩ := hInv
  have hOKe : uuidOK e := hOK e (by simp)
  have hmem_e : e ∈ pre ++ e :: suf' := by simp
  rw [List.pairwise_append] at hpair
  obtain ⟨hpairPre, hpairCons, hcross⟩ := hpair
  rw [List.pairwise_cons] at hpairCons
  obtain ⟨hpairHead, hpairSuf⟩ := hpairCons
  by_cases htext : e.text?.getD [] = []
  · rw [step_noText htext]
    refine ⟨huniq, hnopat, ?_, ?_, ?_, ?_⟩
    · intro e' he' v hv
      exact hsuf e' (List.mem_cons_of_mem _ he') v hv
    · intro e'' h'' ht'' v hv
      rcases List.mem_append.mp h'' with h2 | h2
      · exact hpreU e'' h2 ht'' v hv
      · rcases List.eq_of_mem_singleton h2 with rfl
        exact absurd htext ht''
    · intro e'' h'' ht'' hnone
      rcases List.mem_append.mp h'' with h2 | h2
      · exact hpreN e'' h2 ht'' hnone
      · rcases List.eq_of_mem_singleton h2 with rfl
        exact absurd htext ht''
    · intro e'' h'' ht'' hrk
      rcases List.mem_append.mp h'' with h2 | h2
      · exact hph e'' h2 ht'' hrk
      · rcases List.eq_of_mem_singleton h2 with rfl
        exact absurd htext ht''
  · cases huuid : e.uuid? with
    | none =>
      have hu8 : uuid8Of e = [] := by
        unfold uuid8Of
        rw [huuid]
        rfl
      have hfilnil : filterKey acc.2.1.files [] = [] :=
        filterKey_nil_of_no_empty_match hnopat
      have hfind : find_existing_file acc.2.1.files (uuid8Of e) = none := by
        rw [find_existing_file_eq_head, hu8, hfilnil]
        rfl
      rw [step_new htext hdry hfind]
      have hEffE : effKey e = "UNKNOWN".toList := effKey_none huuid
      have hfnUnk : matchesPattern (generate_filename e) ("UNKNOWN".toList) = true := by
        rw [← hEffE]
        exact gen_matches_effKey e
      have hfnNotNil : matchesPattern (generate_filename e) [] = false :=
        not_matches_gen_of_other_key hOKe (by decide) (by rw [hEffE]; decide)
      have hnomatchKey : ∀ (e' : Entry) (v : Str), uuidOK e' → e'.uuid? = some v →
          matchesPattern (generate_filename e) (uuid8Of e') = false := by
        intro e' v hOK' hv
        refine not_matches_gen_of_other_key hOKe ?_ ?_
        · rw [uuid8Of_eq_effKey hv]
          exact uuidOK_lparen_notin_effKey hOK'
        · rw [hEffE, uuid8Of_some hv]
          intro hcon
          unfold uuidOK at hOK'
          rw [hv] at hOK'
          exact hOK'.2.2 hcon
      refine ⟨uniqNames_writeFile _ _ huniq, ?_, ?_, ?_, ?_, ?_⟩
      · intro f hf
        rcases mem_writeFile hf with h | h
        · exact hnopat f h
        · rw [h]
          simp [hfnNotNil]
      · intro e' he' v hv
        have hOK' : uuidOK e' := hOK e' (by simp [he'])
        rw [filterKey_writeFile_no_match (hnomatchKey e' v hOK' hv)]
        exact hsuf e' (List.mem_cons_of_mem _ he') v hv
      · intro e'' h'' ht'' v hv
        rcases List.mem_append.mp h'' with h2 | h2
        · have hOK'' : uuidOK e'' := hOK e'' (by simp [h2])
          rw [filterKey_writeFile_no_match (hnomatchKey e'' v hOK'' hv)]
          exact hpreU e'' h2 ht'' v hv
        · rcases List.eq_of_mem_singleton h2 with rfl
          rw [huuid] at hv
          exact absurd hv (by simp)
      · intro e'' h'' ht'' hnone
        rcases List.mem_append.mp h'' with h2 | h2
        · have hneq : generate_filename e'' ≠ generate_filename e :=
            (hcross e'' h2 e (List.mem_cons_self _ _)).2 hnone huuid
          exact writeFile_mem_other (hpreN e'' h2 ht'' hnone) hneq
        · rcases List.eq_of_mem_singleton h2 with rfl
          exact writeFile_self_mem _ _ _
      · intro e'' h'' ht'' hrk
        rcases List.mem_append.mp h'' with h2 | h2
        · intro p hp hs
          exact foldl_copyOnePhoto_mono e.photos _ (hph e'' h2 ht'' hrk p hp hs)
        · rcases List.eq_of_mem_singleton h2 with rfl
          exact copy_photos_establish e'' srcPool _
    | some u =>
      have hkey : filterKey acc.2.1.files (uuid8Of e) = filterKey fs0files (uuid8Of e) :=
        hsuf e (List.mem_cons_self _ _) u huuid
      have hu8eff : uuid8Of e = effKey e := uuid8Of_eq_effKey huuid
      have hOKu := hOKe
      unfold uuidOK at hOKu
      rw [huuid] at hOKu
      have hlp : '(' ∉ uuid8Of e := by
        rw [hu8eff]
        exact uuidOK_lparen_notin_effKey hOKe
      have hfnKey : matchesPattern (generate_filename e) (uuid8Of e) = true := by
        rw [hu8eff]
        exact gen_matches_effKey e
      have hfnNotNil : matchesPattern (generate_filename e) [] = false := by
        refine not_matches_gen_of_other_key hOKe (by decide) ?_
        exact (uuidOK_effKey_ne_nil hOKe huuid).symm
      have hnomatchKey : ∀ (e' : Entry) (v : Str), uuidOK e' → e'.uuid? = some v →
          v.take 8 ≠ u.take 8 →
          matchesPattern (generate_filename e) (uuid8Of e') = false := by
        intro e' v hOK' hv hvu
        refine not_matches_gen_of_other_key hOKe ?_ ?_
        · rw [uuid8Of_eq_effKey hv]
          exact uuidOK_lparen_notin_effKey hOK'
        · rw [uuid8Of_some hv, effKey_some huuid]
          exact hvu
      have hnomatchUnk : ∀ e'' : Entry, e''.uuid? = none →
          generate_filename e'' ≠ generate_filename e := by
        intro e'' hnone hcon
        have h1 : matchesPattern (generate_filename e'') (uuid8Of e) = true := by
          rw [hcon]
          exact hfnKey
        have h2 : matchesPattern (generate_filename e'') ("UNKNOWN".toList) = true := by
          rw [show ("UNKNOWN".toList : Str) = effKey e'' from (effKey_none hnone).symm]
          exact gen_matches_effKey e''
        have := matchesPattern_unique hlp (by decide) h1 h2
        rw [hu8eff, effKey_some huuid] at this
        exact hOKu.2.2 this
      cases hfind0 : find_existing_file fs0files (uuid8Of e) with
      | none =>
        have hfil0 : filterKey fs0files (uuid8Of e) = [] := by
          rw [find_existing_file_eq_head] at hfind0
          exact List.head?_eq_none_iff.mp hfind0
        have hfilacc : filterKey acc.2.1.files (uuid8Of e) = [] := by
          rw [hkey, hfil0]
        have hfind : find_existing_file acc.2.1.files (uuid8Of e) = none := by
          rw [find_existing_file_eq_head, hfilacc]
          rfl
        have hrk : reconKeep fs0files e = none := by
          unfold reconKeep
          rw [hfind0]
        rw [step_new htext hdry hfind]
        refine ⟨uniqNames_writeFile _ _ huniq, ?_, ?_, ?_, ?_, ?_⟩
        · intro f hf
          rcases mem_writeFile hf with h | h
          · exact hnopat f h
          · rw [h]
            simp [hfnNotNil]
        · intro e' he' v hv
          have hOK' : uuidOK e' := hOK e' (by simp [he'])
          have hvu : v.take 8 ≠ u.take 8 :=
            fun hcon => (hpairHead e' he').1 u v huuid hv hcon.symm
          rw [filterKey_writeFile_no_match (hnomatchKey e' v hOK' hv hvu)]
          exact hsuf e' (List.mem_cons_of_mem _ he') v hv
        · intro e'' h'' ht'' v hv
          rcases List.mem_append.mp h'' with h2 | h2
          · have hOK'' : uuidOK e'' := hOK e'' (by simp [h2])
            have hvu : v.take 8 ≠ u.take 8 :=
              (hcross e'' h2 e (List.mem_cons_self _ _)).1 v u hv huuid
            rw [filterKey_writeFile_no_match (hnomatchKey e'' v hOK'' hv hvu)]
            exact hpreU e'' h2 ht'' v hv
          · rcases List.eq_of_mem_singleton h2 with rfl
            have hany := any_name_false_of_filterKey_nil hfilacc hfnKey
            rw [filterKey_writeFile_append hfnKey hany, hfilacc]
            unfold run1File
            rw [hrk]
            rfl
        · intro e'' h'' ht'' hnone
          rcases List.mem_append.mp h'' with h2 | h2
          · exact writeFile_mem_other (hpreN e'' h2 ht'' hnone) (hnomatchUnk e'' hnone)
          · rcases List.eq_of_mem_singleton h2 with rfl
            rw [huuid] at hnone
            exact absurd hnone (by simp)
        · intro e'' h'' ht'' hrk''
          rcases List.mem_append.mp h'' with h2 | h2
          · intro p hp hs
            exact foldl_copyOnePhoto_mono e.photos _ (hph e'' h2 ht'' hrk'' p hp hs)
          · rcases List.eq_of_mem_singleton h2 with rfl
            exact copy_photos_establish e'' srcPool _
      | some nc =>
        obtain ⟨n0, c0⟩ := nc
        have hfil0 : filterKey fs0files (uuid8Of e) = [(n0, c0)] := by
          rw [find_existing_file_eq_head] at hfind0
          exact head?_eq_singleton hfind0 (hwf.2.2 e hmem_e)
        have hfilacc : filterKey acc.2.1.files (uuid8Of e) = [(n0, c0)] := by
          rw [hkey, hfil0]
        have hfind : find_existing_file acc.2.1.files (uuid8Of e) = some (n0, c0) := by
          rw [find_existing_file_eq_head, hfilacc]
          rfl
        have hn0 := mem_of_filter_singleton (q := fun p => matchesPattern p.1 (uuid8Of e))
          hfil0
        by_cases hcur : isCurrentTest (extract_modified_date_from_file c0)
            (e.modifiedDate?.getD []) = true
        · have hrk : reconKeep fs0files e = some (n0, c0) := by
            unfold reconKeep
            rw [hfind0]
            simp only [if_pos hcur]
          rw [step_found_current htext hupd hfind hcur]
          refine ⟨huniq, hnopat, ?_, ?_, ?_, ?_⟩
          · intro e' he' v hv
            exact hsuf e' (List.mem_cons_of_mem _ he') v hv
          · intro e'' h'' ht'' v hv
            rcases List.mem_append.mp h'' with h2 | h2
            · exact hpreU e'' h2 ht'' v hv
            · rcases List.eq_of_mem_singleton h2 with rfl
              rw [hfilacc]
              unfold run1File
              rw [hrk]
          · intro e'' h'' ht'' hnone
            rcases List.mem_append.mp h'' with h2 | h2
            · exact hpreN e'' h2 ht'' hnone
            · rcases List.eq_of_mem_singleton h2 with rfl
              rw [huuid] at hnone
              exact absurd hnone (by simp)
          · intro e'' h'' ht'' hrk''
            rcases List.mem_append.mp h'' with h2 | h2
            · exact hph e'' h2 ht'' hrk''
            · rcases List.eq_of_mem_singleton h2 with rfl
              rw [hrk] at hrk''
              exact absurd hrk'' (by simp)
        · have hrk : reconKeep fs0files e = none := by
            unfold reconKeep
            rw [hfind0]
            simp only [if_neg hcur]
          rw [step_found_stale htext hupd hdry hfind hcur]
          have hn0OtherKeys : ∀ (k : Str), '(' ∉ k → k ≠ uuid8Of e →
              ∀ p ∈ acc.2.1.files, matchesPattern p.1 k = true → p.1 ≠ n0 := by
            intro k hk hkne p hp hq hcon
            rw [hcon] at hq
            exact hkne (matchesPattern_unique hk hlp hq hn0.2)
          have hn0NotUnk : ∀ e'' : Entry, e''.uuid? = none →
              generate_filename e'' ≠ n0 := by
            intro e'' hnone hcon
            have h2 : matchesPattern n0 ("UNKNOWN".toList) = true := by
              rw [← hcon,
                show ("UNKNOWN".toList : Str) = effKey e'' from (effKey_none hnone).symm]
              exact gen_matches_effKey e''
            have := matchesPattern_unique (by decide) hlp h2 hn0.2
            rw [hu8eff, effKey_some huuid] at this
            exact hOKu.2.2 this.symm
          set files1 := (if n0 ≠ generate_filename e
            then deleteFile acc.2.1.files n0 else acc.2.1.files)
            with hfiles1
          have hfiles1uniq : uniqNames files1 := by
            rw [hfiles1]
            by_cases hren : n0 ≠ generate_filename e
            · rw [if_pos hren]
              exact uniqNames_deleteFile _ huniq
            · rw [if_neg hren]
              exact huniq
          have hfiles1mem : ∀ f ∈ files1, f ∈ acc.2.1.files := by
            intro f hf
            rw [hfiles1] at hf
            by_cases hren : n0 ≠ generate_filename e
            · rw [if_pos hren] at hf
              exact mem_of_mem_deleteFile hf
            · rw [if_neg hren] at hf
              exact hf
          have hfiles1other : ∀ (k : Str), '(' ∉ k → k ≠ uuid8Of e →
              filterKey files1 k = filterKey acc.2.1.files k := by
            intro k hk hkne
            rw [hfiles1]
            by_cases hren : n0 ≠ generate_filename e
            · rw [if_pos hren]
              exact filterKey_deleteFile_no_match (hn0OtherKeys k hk hkne)
            · rw [if_neg hren]
          have hfiles1memN : ∀ e'' : Entry, e''.uuid? = none →
              (generate_filename e'', entryContentOf e'') ∈ acc.2.1.files →
              (generate_filename e'', entryContentOf e'') ∈ files1 := by
            intro e'' hnone hmem''
            rw [hfiles1]
            by_cases hren : n0 ≠ generate_filename e
            · rw [if_pos hren]
              exact mem_deleteFile_of_mem hmem'' (hn0NotUnk e'' hnone)
            · rw [if_neg hren]
              exact hmem''
          have hfiles1own : filterKey (writeFile files1 (generate_filename e)
              (entryContentOf e)) (uuid8Of e) =
              [(generate_filename e, entryContentOf e)] := by
            rw [hfiles1]
            by_cases hren : n0 ≠ generate_filename e
            · rw [if_pos hren]
              have hdel : filterKey (deleteFile acc.2.1.files n0) (uuid8Of e) = [] :=
                filterKey_deleteFile_own hfilacc
              have hany := any_name_false_of_filterKey_nil hdel hfnKey
              rw [filterKey_writeFile_append hfnKey hany, hdel]
              rfl
            · rw [if_neg hren]
              rw [Classical.not_not] at hren
              rw [← hren]
              exact filterKey_writeFile_match hn0.2 hfilacc
          refine ⟨uniqNames_writeFile _ _ hfiles1uniq, ?_, ?_, ?_, ?_, ?_⟩
          · intro f hf
            rcases mem_writeFile hf with h | h
            · exact hnopat f (hfiles1mem f h)
            · rw [h]
              simp [hfnNotNil]
          · intro e' he' v hv
            have hOK' : uuidOK e' := hOK e' (by simp [he'])
            have hvu : v.take 8 ≠ u.take 8 :=
              fun hcon => (hpairHead e' he').1 u v huuid hv hcon.symm
            have hkne : uuid8Of e' ≠ uuid8Of e := by
              rw [uuid8Of_some hv, uuid8Of_some huuid]
              exact hvu
            rw [filterKey_writeFile_no_match (hnomatchKey e' v hOK' hv hvu)]
            rw [hfiles1other (uuid8Of e')
              (by rw [uuid8Of_eq_effKey hv]; exact uuidOK_lparen_notin_effKey hOK') hkne]
            exact hsuf e' (List.mem_cons_of_mem _ he') v hv
          · intro e'' h'' ht'' v hv
            rcases List.mem_append.mp h'' with h2 | h2
            · have hOK'' : uuidOK e'' := hOK e'' (by simp [h2])
              have hvu : v.take 8 ≠ u.take 8 :=
                (hcross e'' h2 e (List.mem_cons_self _ _)).1 v u hv huuid
              have hkne : uuid8Of e'' ≠ uuid8Of e := by
                rw [uuid8Of_some hv, uuid8Of_some huuid]
                exact hvu
              rw [filterKey_writeFile_no_match (hnomatchKey e'' v hOK'' hv hvu)]
              rw [hfiles1other (uuid8Of e'')
                (by rw [uuid8Of_eq_effKey hv]; exact uuidOK_lparen_notin_effKey hOK'') hkne]
              exact hpreU e'' h2 ht'' v hv
            · rcases List.eq_of_mem_singleton h2 with rfl
              rw [hfiles1own]
              unfold run1File
              rw [hrk]
          · intro e'' h'' ht'' hnone
            rcases List.mem_append.mp h'' with h2 | h2
            · exact writeFile_mem_other
                (hfiles1memN e'' hnone (hpreN e'' h2 ht'' hnone))
                (hnomatchUnk e'' hnone)
            · rcases List.eq_of_mem_singleton h2 with rfl
              rw [huuid] at hnone
              exact absurd hnone (by simp)
          · intro e'' h'' ht'' hrk''
            rcases List.mem_append.mp h'' with h2 | h2
            · intro p hp hs
              exact foldl_copyOnePhoto_mono e.photos _ (hph e'' h2 ht'' hrk'' p hp hs)
            · rcases List.eq_of_mem_singleton h2 with rfl
              exact copy_photos_establish e'' srcPool _

theorem run1_fold (args : Args) (srcPool : List Str) (fs0files : List (Str × Str))
    (hupd : args.update = true) (hdry : args.dryRun = false) :
    ∀ (suf pre : List Entry) (acc : Stats × FS × List EntryAction),
      (∀ x ∈ pre ++ suf, uuidOK x) →
      List.Pairwise pairOK (pre ++ suf) →
      WFInitFS (pre ++ suf) fs0files →
      Inv1 srcPool fs0files pre suf acc.2.1 →
      Inv1 srcPool fs0files (pre ++ suf) []
        ((suf.foldl (step args srcPool) acc)).2.1 := by
  intro suf
  induction suf with
  | nil =>
    intro pre acc hOK hpair hwf hInv
    simpa using hInv
  | cons e suf' ih =>
    intro pre acc hOK hpair hwf hInv
    have hsplit : pre ++ e :: suf' = (pre ++ [e]) ++ suf' := by simp
    rw [List.foldl_cons]
    have hstep := run1_step args srcPool fs0files pre suf' e acc hupd hdry
      hOK hpair hwf hInv
    have hres := ih (pre ++ [e]) (step args srcPool acc e)
      (by rw [← hsplit]; exact hOK) (by rw [← hsplit]; exact hpair)
      (by rw [← hsplit]; exact hwf) hstep
    rw [hsplit]
    exact hres

-- ### C1: the second run

theorem run2_step (args : Args) (srcPool : List Str)
    (fs0files : List (Str × Str)) (es : List Entry) (fs1 : FS)
    (hupd : args.update = true) (hdry : args.dryRun = false)
    (huniq : uniqNames fs1.files)
    (hnopat : ∀ f ∈ fs1.files, ¬ matchesPattern f.1 [] = true)
    (hA : ∀ e ∈ es, ¬ e.text?.getD [] = [] → ∀ u, e.uuid? = some u →
      filterKey fs1.files (uuid8Of e) = [run1File fs0files e])
    (hB : ∀ e ∈ es, ¬ e.text?.getD [] = [] → e.uuid? = none →
      (generate_filename e, entryContentOf e) ∈ fs1.files)
    (hD : ∀ e ∈ es, ¬ e.text?.getD [] = [] → reconKeep fs0files e = none →
      photosDone e srcPool fs1.photoFiles)
    (hE : ∀ e ∈ es, e.uuid? = none → reconKeep fs0files e = none)
    (e : Entry) (he : e ∈ es) (acc : Stats × FS × List EntryAction)
    (hfiles : acc.2.1.files = fs1.files)
    (hphotos : acc.2.1.photoFiles = fs1.photoFiles) :
    (step args srcPool acc e).2.1.files = fs1.files ∧
    (step args srcPool acc e).2.1.photoFiles = fs1.photoFiles ∧
    ∃ a, (step args srcPool acc e).2.2 = acc.2.2 ++ [a] ∧ run2OK e a := by
  by_cases htext : e.text?.getD [] = []
  · rw [step_noText htext]
    exact ⟨hfiles, hphotos, EntryAction.noText, rfl, Or.inl ⟨htext, rfl⟩⟩
  · cases huuid : e.uuid? with
    | none =>
      have hu8 : uuid8Of e = [] := by
        unfold uuid8Of
        rw [huuid]
        rfl
      have hfind : find_existing_file acc.2.1.files (uuid8Of e) = none := by
        rw [find_existing_file_eq_head, hu8, hfiles,
          filterKey_nil_of_no_empty_match hnopat]
        rfl
      rw [step_new htext hdry hfind]
      refine ⟨?_, ?_, EntryAction.created, rfl, Or.inr (Or.inl ⟨htext, huuid, rfl⟩)⟩
      · simp only
        rw [hfiles]
        exact writeFile_self_id huniq (hB e he htext huuid)
      · simp only
        rw [hphotos]
        exact copy_photos_id (hD e he htext (hE e he huuid))
    | some u =>
      have hAe := hA e he htext u huuid
      rcases hm : run1File fs0files e with ⟨n1, c1⟩
      rw [hm] at hAe
      have hfind : find_existing_file acc.2.1.files (uuid8Of e) = some (n1, c1) := by
        rw [find_existing_file_eq_head, hfiles, hAe]
        rfl
      have hmemm := mem_of_filter_singleton
        (q := fun p => matchesPattern p.1 (uuid8Of e)) hAe
      by_cases hcur : isCurrentTest (extract_modified_date_from_file c1)
          (e.modifiedDate?.getD []) = true
      · rw [step_found_current htext hupd hfind hcur]
        exact ⟨hfiles, hphotos, EntryAction.skippedCurrent, rfl,
          Or.inr (Or.inr ⟨htext, ⟨u, huuid⟩, Or.inl rfl⟩)⟩
      · have hrknone : reconKeep fs0files e = none := by
          cases hrk : reconKeep fs0files e with
          | none => rfl
          | some nc =>
            have hc := reconKeep_some_current hrk
            have hrun : run1File fs0files e = nc := by
              unfold run1File
              rw [hrk]
            rw [hm] at hrun
            rw [← hrun] at hc
            exact absurd hc hcur
        have hn1 : n1 = generate_filename e ∧ c1 = entryContentOf e := by
          have hrun : run1File fs0files e =
              (generate_filename e, entryContentOf e) := by
            unfold run1File
            rw [hrknone]
          rw [hm] at hrun
          exact ⟨congrArg Prod.fst hrun, congrArg Prod.snd hrun⟩
        rw [step_found_stale htext hupd hdry hfind hcur]
        have hren : ¬ (n1 ≠ generate_filename e) := by
          rw [hn1.1]
          simp
        refine ⟨?_, ?_, EntryAction.updated (decide (n1 ≠ generate_filename e)), rfl,
          Or.inr (Or.inr ⟨htext, ⟨u, huuid⟩, Or.inr ?_⟩)⟩
        · simp only
          rw [if_neg hren, hfiles]
          have hmem2 : (generate_filename e, entryContentOf e) ∈ fs1.files := by
            rw [← hn1.1, ← hn1.2]
            exact hmemm.1
          exact writeFile_self_id huniq hmem2
        · simp only
          rw [hphotos]
          exact copy_photos_id (hD e he htext hrknone)
        · rw [decide_eq_false hren]

theorem run2_fold (args : Args) (srcPool : List Str)
    (fs0files : List (Str × Str)) (es : List Entry) (fs1 : FS)
    (hupd : args.update = true) (hdry : args.dryRun = false)
    (huniq : uniqNames fs1.files)
    (hnopat : ∀ f ∈ fs1.files, ¬ matchesPattern f.1 [] = true)
    (hA : ∀ e ∈ es, ¬ e.text?.getD [] = [] → ∀ u, e.uuid? = some u →
      filterKey fs1.files (uuid8Of e) = [run1File fs0files e])
    (hB : ∀ e ∈ es, ¬ e.text?.getD [] = [] → e.uuid? = none →
      (generate_filename e, entryContentOf e) ∈ fs1.files)
    (hD : ∀ e ∈ es, ¬ e.text?.getD [] = [] → reconKeep fs0files e = none →
      photosDone e srcPool fs1.photoFiles)
    (hE : ∀ e ∈ es, e.uuid? = none → reconKeep fs0files e = none) :
    ∀ (suf : List Entry), (∀ x ∈ suf, x ∈ es) →
      ∀ (acc : Stats × FS × List EntryAction),
      acc.2.1.files = fs1.files → acc.2.1.photoFiles = fs1.photoFiles →
      (suf.foldl (step args srcPool) acc).2.1.files = fs1.files ∧
      (suf.foldl (step args srcPool) acc).2.1.photoFiles = fs1.photoFiles ∧
      ∃ tail, (suf.foldl (step args srcPool) acc).2.2 = acc.2.2 ++ tail ∧
        List.Forall₂ run2OK suf tail := by
  intro suf
  induction suf with
  | nil =>
    intro hsub acc hf hp
    exact ⟨hf, hp, [], by simp, List.Forall₂.nil⟩
  | cons e suf' ih =>
    intro hsub acc hf hp
    obtain ⟨hf1, hp1, a, hacts, hok⟩ := run2_step args srcPool fs0files es fs1
      hupd hdry huniq hnopat hA hB hD hE e (hsub e (List.mem_cons_self _ _)) acc hf hp
    rw [List.foldl_cons]
    obtain ⟨hf2, hp2, tail, htail, hfa⟩ :=
      ih (fun x hx => hsub x (List.mem_cons_of_mem _ hx))
        (step args srcPool acc e) hf1 hp1
    refine ⟨hf2, hp2, a :: tail, ?_, List.Forall₂.cons hok hfa⟩
    rw [htail, hacts, List.append_assoc]
    rfl

theorem process_entries_parsed_ne (es : List Entry) (args : Args)
    (srcPool : List Str) (fs : FS) (hne : es ≠ []) (hdry : args.dryRun = false) :
    process_entries (LoadResult.parsed es) args srcPool fs =
      ((if (es.foldl (step args srcPool)
          (initStats, { fs with dirsMade := true }, [])).1.errors = 0
        then 0 else 1 : Int),
       (es.foldl (step args srcPool) (initStats, { fs with dirsMade := true }, [])).1,
       { (es.foldl (step args srcPool)
           (initStats, { fs with dirsMade := true }, [])).2.1 with
         logRuns := (es.foldl (step args srcPool)
           (initStats, { fs with dirsMade := true }, [])).2.1.logRuns + 1 },
       (es.foldl (step args srcPool)
         (initStats, { fs with dirsMade := true }, [])).2.2) := by
  simp only [process_entries]
  rw [if_neg hne, hdry]
  rfl

/-- **C1 (amended).**  Idempotence of the pipeline for well-formed exports:
every entry's identifier, when present, is non-empty, alphanumeric, and
has an 8-character prefix distinct from `UNKNOWN` and from every other
entry's prefix; entries without an identifier have pairwise-distinct
derived filenames; and the starting directory has unique names, no name
ending in `().md`, and at most one match per entry prefix.  Then running
the full conversion twice (update mode on, preview off) leaves the entry
files and the photo files of the output exactly as after the first run —
identical contents, zero net new files (only the append-only run log
grows) — and on the second run every entry lands in CURRENT, or in STALE
with no filename change and no content change, except that empty-text
entries are skipped before the state machine and entries lacking an
identifier are classified NEW again and re-create their file in place
(the correction the counterexample forces). -/
theorem c1_idempotence_amended (es : List Entry) (args : Args)
    (srcPool : List Str) (fs0 : FS)
    (hupd : args.update = true) (hdry : args.dryRun = false)
    (hOK : ∀ e ∈ es, uuidOK e)
    (hpair : List.Pairwise pairOK es)
    (hwf : WFInitFS es fs0.files) :
    (process_entries (LoadResult.parsed es) args srcPool
        (process_entries (LoadResult.parsed es) args srcPool fs0).2.2.1).2.2.1.files =
      (process_entries (LoadResult.parsed es) args srcPool fs0).2.2.1.files ∧
    (process_entries (LoadResult.parsed es) args srcPool
        (process_entries (LoadResult.parsed es) args srcPool fs0).2.2.1).2.2.1.photoFiles =
      (process_entries (LoadResult.parsed es) args srcPool fs0).2.2.1.photoFiles ∧
    List.Forall₂ run2OK es
      (process_entries (LoadResult.parsed es) args srcPool
        (process_entries (LoadResult.parsed es) args srcPool fs0).2.2.1).2.2.2 := by
  by_cases hne : es = []
  · subst hne
    exact ⟨rfl, rfl, List.Forall₂.nil⟩
  · have hInv0 : Inv1 srcPool fs0.files [] es ({ fs0 with dirsMade := true } : FS) := by
      refine ⟨hwf.1, hwf.2.1, ?_, ?_, ?_, ?_⟩
      · intro e he v hv
        rfl
      · intro e he
        simp at he
      · intro e he
        simp at he
      · intro e he
        simp at he
    have hInv1 := run1_fold args srcPool fs0.files hupd hdry es []
      (initStats, ({ fs0 with dirsMade := true } : FS), [])
      (by simpa using hOK) (by simpa using hpair) (by simpa using hwf) hInv0
    rw [List.nil_append] at hInv1
    obtain ⟨huniq1, hnopat1, _, hA1, hB1, hD1⟩ := hInv1
    have hE1 : ∀ e ∈ es, e.uuid? = none → reconKeep fs0.files e = none := by
      intro e he hnone
      have hu8 : uuid8Of e = [] := by
        unfold uuid8Of
        rw [hnone]
        rfl
      unfold reconKeep
      rw [show find_existing_file fs0.files (uuid8Of e) = none by
        rw [find_existing_file_eq_head, hu8,
          filterKey_nil_of_no_empty_match hwf.2.1]
        rfl]
    have hrun2 := run2_fold args srcPool fs0.files es
      ((es.foldl (step args srcPool)
        (initStats, ({ fs0 with dirsMade := true } : FS), [])).2.1)
      hupd hdry huniq1 hnopat1 hA1 hB1 hD1 hE1 es (fun x hx => hx)
      (initStats,
       ({ ({ (es.foldl (step args srcPool)
            (initStats, ({ fs0 with dirsMade := true } : FS), [])).2.1 with
          logRuns := (es.foldl (step args srcPool)
            (initStats, ({ fs0 with dirsMade := true } : FS), [])).2.1.logRuns + 1 } : FS)
        with dirsMade := true } : FS), [])
      rfl rfl
    obtain ⟨hf2, hp2, tail, htail, hfa⟩ := hrun2
    rw [List.nil_append] at htail
    rw [process_entries_parsed_ne es args srcPool fs0 hne hdry]
    rw [process_entries_parsed_ne es args srcPool _ hne hdry]
    exact ⟨hf2, hp2, htail.symm ▸ hfa⟩

/-- **C1 (counterexample).**  The claim as stated — on the second run every
entry lands in CURRENT or in STALE — fails for an export containing one
entry with text but no `uuid`: the second run classifies it NEW
(`created`) again, because its reconciliation key is the empty string
while its filename carries the `(UNKNOWN)` suffix.  (File contents are
re-created identically, which is what the amended claim records.) -/
theorem c1_idempotence_counterexample :
    ¬ (∀ a ∈ (process_entries
          (LoadResult.parsed [{ blankEntry with text? := some "x".toList }])
          ⟨true, false, false⟩ []
          (process_entries
            (LoadResult.parsed [{ blankEntry with text? := some "x".toList }])
            ⟨true, false, false⟩ [] (⟨[], [], false, 0⟩ : FS)).2.2.1).2.2.2,
        a = EntryAction.skippedCurrent ∨ ∃ b, a = EntryAction.updated b) := by
  intro h
  have hacts : (process_entries
      (LoadResult.parsed [{ blankEntry with text? := some "x".toList }])
      ⟨true, false, false⟩ []
      (process_entries
        (LoadResult.parsed [{ blankEntry with text? := some "x".toList }])
        ⟨true, false, false⟩ [] (⟨[], [], false, 0⟩ : FS)).2.2.1).2.2.2 =
      [EntryAction.created] := by decide
  rcases h EntryAction.created (by rw [hacts]; exact List.mem_singleton_self _)
    with h1 | ⟨b, h2⟩
  · exact EntryAction.noConfusion h1
  · exact EntryAction.noConfusion h2

/-- Witness for the amended C1 at a concrete one-entry export with
identifier `ABCDEFGH`, starting from an empty directory. -/
theorem c1_idempotence_amended_witness :
    List.Forall₂ run2OK
      [{ blankEntry with
         uuid? := some "ABCDEFGH".toList
         text? := some "x".toList }]
      (process_entries
        (LoadResult.parsed [{ blankEntry with
          uuid? := some "ABCDEFGH".toList
          text? := some "x".toList }])
        ⟨true, false, false⟩ []
        (process_entries
          (LoadResult.parsed [{ blankEntry with
            uuid? := some "ABCDEFGH".toList
            text? := some "x".toList }])
          ⟨true, false, false⟩ [] (⟨[], [], false, 0⟩ : FS)).2.2.1).2.2.2 :=
  (c1_idempotence_amended
    [{ blankEntry with
       uuid? := some "ABCDEFGH".toList
       text? := some "x".toList }]
    ⟨true, false, false⟩ [] (⟨[], [], false, 0⟩ : FS) rfl rfl
    (by
      intro e he
      rcases List.eq_of_mem_singleton he with rfl
      exact ⟨by decide, by decide, by decide⟩)
    (by simp)
    ⟨List.Pairwise.nil, by simp, by
      intro e he
      simp [filterKey]⟩).2.2
